import Mathlib

/-! BatchProcessDialog.cpp: chain editor and batch execution.

A shallow embedding of `src/BatchProcessDialog.cpp` (Audacity): the step-list
operations of `EditChainsDialog` and the run loops of `BatchProcessDialog`.

Conventions.
* Row indices are `Int`, as in the source (`long item`, `int item`), so that
  the `-1` returned by `GetNextItem` when nothing is selected is a value.
* `BatchCommands`, `AudacityProject`, `UndoManager` and the wx classes are not
  defined in this file.  What the handlers need from them is either modelled
  under a `Modelled from the spec:` comment, or passed in as the answers the
  collaborator gives (an environment record).
-/

namespace Audacity

/-! ## Steps and the chain held by `mBatchCommands` -/

/-- One chain entry: a command identifier and its parameter string. -/
structure Step where
  command : String
  params : String
deriving DecidableEq, Repr

/-- Modelled from the spec: `BatchCommands::AddToChain(command, params, before)`
is not defined in BatchProcessDialog.cpp.  The spec's `insertStep` inserts the
step before position `index`, the index being clamped to `[0, length]`. -/
def AddToChain (chain : List Step) (command params : String) (before : Int) : List Step :=
  chain.take before.toNat ++ Step.mk command params :: chain.drop before.toNat

/-- Modelled from the spec: `BatchCommands::DeleteFromChain(index)` is not
defined in BatchProcessDialog.cpp.  The spec's `deleteStep` removes the step at
`index`; an index that names no stored step removes nothing. -/
def DeleteFromChain (chain : List Step) (index : Int) : List Step :=
  if index < 0 then chain else chain.eraseIdx index.toNat

/-- Modelled from the spec: `BatchCommands::GetCommand(index)`, the command of
the stored step at `index` (the empty string when there is none). -/
def GetCommand (chain : List Step) (index : Int) : String :=
  if index < 0 then "" else ((chain.get? index.toNat).map Step.command).getD ""

/-- Modelled from the spec: `BatchCommands::GetParams(index)`, the parameters of
the stored step at `index` (the empty string when there is none). -/
def GetParams (chain : List Step) (index : Int) : String :=
  if index < 0 then "" else ((chain.get? index.toNat).map Step.params).getD ""

/-- `BatchCommands::GetCount()`: the number of stored steps. -/
def GetCount (chain : List Step) : Int := chain.length

/-! ## The commands list control `mList` -/

/-- A displayed row of `mList`: the number, action and parameter columns. -/
structure ListRow where
  num : Nat
  action : String
  params : String
deriving DecidableEq, Repr

/-- The part of the `wxListCtrl` state the handlers read back: its rows and the
selected row (`-1` when no row is selected; the control is `wxLC_SINGLE_SEL`). -/
structure ListCtrl where
  rows : List ListRow
  selected : Int
deriving DecidableEq, Repr

/-- `mList->GetItemCount()`. -/
def ListCtrl.GetItemCount (l : ListCtrl) : Int := l.rows.length

/-- `mList->GetNextItem(-1, wxLIST_NEXT_ALL, wxLIST_STATE_SELECTED)`: the
selected row, or `-1`. -/
def ListCtrl.GetNextItem (l : ListCtrl) : Int := l.selected

/-- `mList->DeleteAllItems()`. -/
def ListCtrl.DeleteAllItems (_l : ListCtrl) : ListCtrl := { rows := [], selected := -1 }

/-- `mList->SetItemState(item, wxLIST_STATE_SELECTED, wxLIST_STATE_SELECTED)`.
A row of the list becomes the selected one; an index that is no row of the list
leaves the selection as it is. -/
def ListCtrl.SetItemState (l : ListCtrl) (item : Int) : ListCtrl :=
  if 0 ≤ item ∧ item < l.GetItemCount then { l with selected := item } else l

/-! ## `EditChainsDialog` -/

/-- Calls made on `mBatchCommands` that reach the chain store. -/
inductive StoreCall where
  | ReadChain (name : String)
  | WriteChain (name : String)
  | RenameChain (oldchain newchain : String)
  | AddChain (name : String)
deriving DecidableEq, Repr

/-- The members of `EditChainsDialog` the handlers read or write.
`mChain` is the step list held by `mBatchCommands`; `storeCalls` records, in
order, the store calls made so far. -/
structure EditChainsDialog where
  mActiveChain : String
  mChain : List Step
  mChanged : Bool
  mSelectedCommand : Int
  mList : ListCtrl
  mCommandNames : List (String × String)
  mChains : List String
  mChainsSelected : Int
  mRemoveEnabled : Bool
  mRenameEnabled : Bool
  mDefaultsEnabled : Bool
  mbExpanded : Bool
  shown : Bool
  storeCalls : List StoreCall
deriving DecidableEq, Repr

/-- `EditChainsDialog::AddItem(Action, Params)`: append one row to `mList`,
the action shown under its friendly name when `mCommandNames` has one. -/
def AddItem (names : List (String × String)) (l : ListCtrl) (Action Params : String) : ListCtrl :=
  let friendlyName :=
    match names.find? (fun name => Action == name.2) with
    | some name => name.1
    | none => Action
  let i := l.rows.length
  { l with rows := l.rows ++ [ListRow.mk (i + 1) friendlyName Params] }

/-- `EditChainsDialog::PopulateList()`: rebuild `mList` from the stored steps,
add the `- END -` row, reset `mSelectedCommand` to 0 when it is past the last
row, and select that row. -/
def PopulateList (s : EditChainsDialog) : EditChainsDialog :=
  let l0 := s.mList.DeleteAllItems
  let l1 := s.mChain.foldl (fun l st => AddItem s.mCommandNames l st.command st.params) l0
  let l2 := AddItem s.mCommandNames l1 "- END -" ""
  let sel := if s.mSelectedCommand ≥ l2.GetItemCount then 0 else s.mSelectedCommand
  { s with mSelectedCommand := sel, mList := l2.SetItemState sel }

/-- What the modal `BatchCommandDialog` hands back: the value of `ShowModal()`
and the command and parameters chosen in it. -/
structure BatchCommandDialog where
  ShowModal : Int
  mSelectedCommand : String
  mSelectedParameters : String
deriving DecidableEq, Repr

/-- `EditChainsDialog::InsertCommandAt(item)`. -/
def InsertCommandAt (s : EditChainsDialog) (d : BatchCommandDialog) (item : Int) :
    EditChainsDialog :=
  if item = -1 then s
  else if d.ShowModal = 0 then s
  else if d.mSelectedCommand ≠ "" then
    PopulateList { s with
      mChain := AddToChain s.mChain d.mSelectedCommand d.mSelectedParameters item
      mChanged := true
      mSelectedCommand := item + 1 }
  else s

/-- `EditChainsDialog::OnInsert`. -/
def OnInsert (s : EditChainsDialog) (d : BatchCommandDialog) : EditChainsDialog :=
  let item := s.mList.GetNextItem
  let item := if item = -1 then s.mList.GetItemCount - 1 else item
  InsertCommandAt s d item

/-- Characters `wxString::Trim()` strips from the right end. -/
def wxIsspace (c : Char) : Bool :=
  c == ' ' || c == '\t' || c == '\n' || c == '\r' || c.toNat == 11 || c.toNat == 12

/-- `wxString::Trim()` with its default argument: strip white space from the
right. -/
def wxTrim (str : String) : String :=
  String.mk (str.toList.reverse.dropWhile wxIsspace).reverse

/-- `EditChainsDialog::OnEditCommandParams`.  `prompt command params` is the
string `BatchCommands::PromptForParamsFor` returns; `d` is the dialog outcome
used when the handler falls through to `InsertCommandAt`. -/
def OnEditCommandParams (s : EditChainsDialog) (d : BatchCommandDialog)
    (prompt : String → String → String) : EditChainsDialog :=
  let item := s.mList.GetNextItem
  let lastItem := s.mList.GetItemCount - 1
  if item < 0 ∨ item + 1 = s.mList.GetItemCount then
    InsertCommandAt s d lastItem
  else
    let command := GetCommand s.mChain item
    let params := GetParams s.mChain item
    let params := wxTrim (prompt command params)
    let c1 := DeleteFromChain s.mChain item
    let c2 := AddToChain c1 command params item
    PopulateList { s with mChain := c2, mChanged := true, mSelectedCommand := item }

/-- `EditChainsDialog::OnDelete`. -/
def OnDelete (s : EditChainsDialog) : EditChainsDialog :=
  let item := s.mList.GetNextItem
  if item = -1 ∨ item + 1 = s.mList.GetItemCount then s
  else
    let c1 := DeleteFromChain s.mChain item
    let item := if item ≥ s.mList.GetItemCount - 2 ∧ item ≥ 0 then item - 1 else item
    PopulateList { s with mChain := c1, mChanged := true, mSelectedCommand := item }

/-- `EditChainsDialog::OnUp`. -/
def OnUp (s : EditChainsDialog) : EditChainsDialog :=
  let item := s.mList.GetNextItem
  if item = -1 ∨ item = 0 ∨ item + 1 = s.mList.GetItemCount then s
  else
    let c1 := AddToChain s.mChain (GetCommand s.mChain item) (GetParams s.mChain item) (item - 1)
    let c2 := DeleteFromChain c1 (item + 1)
    PopulateList { s with mChain := c2, mChanged := true, mSelectedCommand := item - 1 }

/-- `EditChainsDialog::OnDown`. -/
def OnDown (s : EditChainsDialog) : EditChainsDialog :=
  let item := s.mList.GetNextItem
  if item = -1 ∨ item + 2 ≥ s.mList.GetItemCount then s
  else
    let c1 := AddToChain s.mChain (GetCommand s.mChain item) (GetParams s.mChain item) (item + 2)
    let c2 := DeleteFromChain c1 item
    PopulateList { s with mChain := c2, mChanged := true, mSelectedCommand := item + 1 }

/-- The list shows the loaded chain: one row per stored step plus the END row.
`PopulateList` establishes this after every change of the chain. -/
def Displayed (s : EditChainsDialog) : Prop :=
  s.mList.GetItemCount = s.mChain.length + 1

instance (s : EditChainsDialog) : Decidable (Displayed s) := by
  unfold Displayed; infer_instance

/-- A small editor state used to exercise the handlers: three stored steps,
shown in the list, with row `sel` selected. -/
def sampleEditor (sel : Int) : EditChainsDialog :=
  PopulateList {
    mActiveChain := "Loud"
    mChain := [Step.mk "Normalize" "", Step.mk "Amplify" "6dB", Step.mk "ExportWAV" ""]
    mChanged := false
    mSelectedCommand := sel
    mList := { rows := [], selected := -1 }
    mCommandNames := []
    mChains := ["Loud"]
    mChainsSelected := 0
    mRemoveEnabled := true
    mRenameEnabled := true
    mDefaultsEnabled := false
    mbExpanded := true
    shown := true
    storeCalls := [] }


/-! ## Chain-level handlers of `EditChainsDialog` -/

/-- The answers of the chain store (`BatchCommands`, not defined in this file)
to the editor: `IsFixed(name)`, the result of `ReadChain(name)` with the step
list it leaves loaded, the result of `WriteChain(name)` for the loaded steps,
and the names `GetNames()` lists after the store calls made so far. -/
structure StoreEnv where
  IsFixed : String → Bool
  ReadChain : String → Bool × List Step
  WriteChain : String → List Step → Bool
  GetNames : List StoreCall → List String

/-- The value `wxYES` of wx/defs.h. -/
def wxYES : Int := 2

/-- The value `wxNO` of wx/defs.h. -/
def wxNO : Int := 8

/-- The value `wxCANCEL` of wx/defs.h. -/
def wxCANCEL : Int := 16

/-- `mChains->GetItemText(item)`: the label of row `item`, empty when there is
no such row. -/
def GetItemText (items : List String) (item : Int) : String :=
  if item < 0 then "" else (items.get? item.toNat).getD ""

/-- `mChains->FindItem(-1, str)`: the first row labelled `str`, or `-1`. -/
def FindItem (items : List String) (str : String) : Int :=
  if str ∈ items then (items.indexOf str : Int) else -1

/-- `EditChainsDialog::ChangeOK()`, with `id` the button the message box
returns when it is shown.  Returns the result and the dialog afterwards. -/
def ChangeOK (env : StoreEnv) (id : Int) (s : EditChainsDialog) : Bool × EditChainsDialog :=
  if s.mChanged then
    if id = wxCANCEL then (false, s)
    else if id = wxYES then
      let s1 := { s with storeCalls := s.storeCalls ++ [StoreCall.WriteChain s.mActiveChain] }
      if !env.WriteChain s.mActiveChain s.mChain then (false, s1)
      else (true, { s1 with mChanged := false })
    else (true, { s with mChanged := false })
  else (true, s)

/-- `EditChainsDialog::OnChainSelected(event)` for the row `item` of the chains
list.  The first component is whether the event was vetoed. -/
def OnChainSelected (env : StoreEnv) (id : Int) (item : Int) (s : EditChainsDialog) :
    Bool × EditChainsDialog :=
  let r := ChangeOK env id s
  if !r.1 then (true, r.2)
  else
    let s1 := r.2
    let name := GetItemText s1.mChains item
    let s2 := { s1 with
      mActiveChain := name
      mChain := (env.ReadChain name).2
      storeCalls := s1.storeCalls ++ [StoreCall.ReadChain name] }
    if !s2.mbExpanded then (false, s2)
    else
      let s3 :=
        if env.IsFixed s2.mActiveChain then
          { s2 with mRemoveEnabled := false, mRenameEnabled := false, mDefaultsEnabled := true }
        else
          { s2 with mRemoveEnabled := true, mRenameEnabled := true, mDefaultsEnabled := false }
      (false, PopulateList s3)

/-- `BatchProcessDialog::PopulateChains()` as run on the editor: refill the
chains list from `GetNames()`, fall back to row 0 when the active chain is not
listed, and select the row, which fires `OnChainSelected` for it. -/
def PopulateChains (env : StoreEnv) (id : Int) (s : EditChainsDialog) : EditChainsDialog :=
  let names := env.GetNames s.storeCalls
  let s1 := { s with mChains := names, mChainsSelected := -1 }
  let item := FindItem names s1.mActiveChain
  let s2 := if item = -1 then { s1 with mActiveChain := GetItemText names 0 } else s1
  let item := if item = -1 then 0 else item
  let s3 := if 0 ≤ item ∧ item < (names.length : Int) then { s2 with mChainsSelected := item } else s2
  if 0 ≤ item ∧ item < (names.length : Int) then (OnChainSelected env id item s3).2 else s3

/-- `EditChainsDialog::OnChainsBeginEdit(event)`: whether the label edit is
vetoed. -/
def OnChainsBeginEdit (env : StoreEnv) (s : EditChainsDialog) : Bool :=
  if env.IsFixed s.mActiveChain then true else false

/-- `EditChainsDialog::OnChainsEndEdit(event)`, with `cancelled` the value of
`event.IsEditCancelled()` and `newname` that of `event.GetLabel()`. -/
def OnChainsEndEdit (env : StoreEnv) (id : Int) (cancelled : Bool) (newname : String)
    (s : EditChainsDialog) : EditChainsDialog :=
  if cancelled then s
  else
    let s1 := { s with
      storeCalls := s.storeCalls ++ [StoreCall.RenameChain s.mActiveChain newname] }
    let s2 := { s1 with mActiveChain := newname }
    PopulateChains env id s2

/-- The value `wxFILE_SEP_PATH_UNIX` of wx/filename.h. -/
def wxFILE_SEP_PATH_UNIX : Char := '/'

/-- `wxString::Strip(wxString::both)`: strip blanks at both ends. -/
def wxStrip (str : String) : String :=
  String.mk ((str.toList.dropWhile (· == ' ')).reverse.dropWhile (· == ' ')).reverse

/-- `EditChainsDialog::OnAdd`.  Each pass of its `while (true)` loop shows the
text-entry dialog once; `entries` are the outcomes of these dialogs in order
(`none` for Cancel, `some v` for the value entered), and the loop is followed
for as long as there are entries.  `sep` is `wxFILE_SEP_PATH`, which depends on
the platform.  The closing `UpdateMenus()` rebuilds the menu bar of the project
and touches nothing kept here. -/
def OnAdd (env : StoreEnv) (id : Int) (sep : Char) :
    List (Option String) → EditChainsDialog → EditChainsDialog
  | [], s => s
  | none :: _, s => s
  | some v :: more, s =>
    let name := wxStrip v
    if name.length = 0 then OnAdd env id sep more s
    else if name.toList.contains sep || name.toList.contains wxFILE_SEP_PATH_UNIX then
      OnAdd env id sep more s
    else
      let s1 := { s with storeCalls := s.storeCalls ++ [StoreCall.AddChain name] }
      let s2 := { s1 with mActiveChain := name }
      PopulateChains env id s2

/-- A store that knows the chains `names`, of which `fixed` are built in; every
chain reads back as `steps`, and a rename to a new name without a path
separator replaces the old name in the list. -/
def sampleStore (names fixed : List String) (steps : List Step) : StoreEnv where
  IsFixed := fun name => fixed.contains name
  ReadChain := fun name => (names.contains name, steps)
  WriteChain := fun _ _ => true
  GetNames := fun calls =>
    calls.foldl (fun ns c =>
      match c with
      | StoreCall.RenameChain o n =>
        if n.toList.contains wxFILE_SEP_PATH_UNIX then ns
        else ns.map (fun x => if x = o then n else x)
      | StoreCall.AddChain n => ns ++ [n]
      | _ => ns) names

/-- A store whose first chain is built in (fixed). -/
def fixedStore : StoreEnv :=
  sampleStore ["MP3 Conversion", "Loud"] ["MP3 Conversion"]
    [Step.mk "Normalize" "", Step.mk "ExportMP3" ""]

/-- The editor after the fixed chain of `fixedStore` has been selected in the
chains list: its two steps are loaded and shown, row 0 is selected. -/
def fixedEditor : EditChainsDialog :=
  (OnChainSelected fixedStore wxNO 0
    { sampleEditor 0 with mChains := ["MP3 Conversion", "Loud"] }).2

/-- A store with two editable chains. -/
def twoChainStore : StoreEnv := sampleStore ["Loud", "Soft"] [] [Step.mk "Amplify" "-6dB"]

/-- The editor with the second chain of `twoChainStore` active and unchanged. -/
def softEditor : EditChainsDialog :=
  (OnChainSelected twoChainStore wxNO 1 { sampleEditor 0 with mChains := ["Loud", "Soft"] }).2

/-! ## Batch execution: `BatchProcessDialog` -/

/-- How a call of `project->Import(path)` ends.  `AudacityProject` is not
defined in this file; the spec's `importFile(path)` returns a result, and the
call sits inside `GuardedCall`, so it may also end by throwing.  The loop
discards the returned value: only `threw` is seen by it. -/
inductive ImportResult where
  | ok
  | failed
  | threw
deriving DecidableEq, Repr

/-- How a call of `mBatchCommands.ApplyChain()` ends: it returns `true` or
`false`, or throws. -/
inductive ApplyResult where
  | returnedTrue
  | returnedFalse
  | threw
deriving DecidableEq, Repr

/-- The calls the two run functions make on their collaborators. -/
inductive Call where
  | Hide
  | Show
  | ActivityWinShow
  | PrefsWrite (key value : String)
  | ReadChain (name : String)
  | SetItemImage (item image selImage : Int)
  | EnsureVisible (item : Int)
  | Import (path : String)
  | ZoomAfterImport
  | OnSelectAll
  | ApplyChain
  | ClearStates
  | OnRemoveTracks
deriving DecidableEq, Repr

/-- A call together with the value of the loop variable `i` at which it was
made (`none` for a call made outside the `for` loop). -/
structure Event where
  iter : Option Nat
  call : Call
deriving DecidableEq, Repr

/-- The collaborators of a run, over a project state `W`: what each call answers
and how it changes the project.  `Import` and `ApplyChain` are indexed by the
loop variable as well, so that the same path may behave differently on
different iterations; `IsShown i` and `mAbort i` are the values
`activityWin.IsShown()` and `mAbort` have when iteration `i` tests them. -/
structure BatchEnv (W : Type) where
  ReadChain : String → Bool
  Import : Nat → String → W → ImportResult × W
  ZoomAfterImport : W → W
  OnSelectAll : W → W
  ApplyChain : Nat → W → ApplyResult × W
  IsShown : Nat → Bool
  mAbort : Nat → Bool
  ClearStates : W → W
  OnRemoveTracks : W → W
  GetIsEmpty : W → Bool

/-- The outcome of one file of a batch.  The source has one `bool success` per
file; the three ways it becomes `false` are kept apart here: the chain or
the import failed (`Failed`), or the cancel test fired (`Aborted`). -/
inductive FileOutcome where
  | Success
  | Failed
  | Aborted
  | NotAttempted
deriving DecidableEq, Repr

/-- The body handed to `GuardedCall< bool >` in the loop of `OnApplyToFiles`
(lines 396-407), with `GuardedCall` turning a throw into `false`.  Returns the
outcome, the project afterwards, and the calls made. -/
def guardedBody {W : Type} (env : BatchEnv W) (i : Nat) (file : String) (w : W) :
    FileOutcome × W × List Event :=
  let imp := env.Import i file w
  if imp.1 = ImportResult.threw then
    (FileOutcome.Failed, imp.2, [⟨some i, Call.Import file⟩])
  else
    let w2 := env.ZoomAfterImport imp.2
    let w3 := env.OnSelectAll w2
    let evs : List Event :=
      [⟨some i, Call.Import file⟩, ⟨some i, Call.ZoomAfterImport⟩,
       ⟨some i, Call.OnSelectAll⟩, ⟨some i, Call.ApplyChain⟩]
    let app := env.ApplyChain i w3
    if app.1 ≠ ApplyResult.returnedTrue then (FileOutcome.Failed, app.2, evs)
    else if !env.IsShown i || env.mAbort i then (FileOutcome.Aborted, app.2, evs)
    else (FileOutcome.Success, app.2, evs)

/-- The per-file reset of lines 412-415. -/
def resetEvents (i : Nat) : List Event :=
  [⟨some i, Call.ClearStates⟩, ⟨some i, Call.OnSelectAll⟩, ⟨some i, Call.OnRemoveTracks⟩]

/-- The calls at the head of iteration `i` (lines 389-394). -/
def headEvents (i : Nat) : List Event :=
  (if i > 0 then [⟨some i, Call.SetItemImage ((i : Int) - 1) 0 0⟩] else []) ++
    [⟨some i, Call.SetItemImage i 1 1⟩, ⟨some i, Call.EnsureVisible i⟩]

/-- The `for` loop of `OnApplyToFiles` (lines 387-416), run from index `i` over
the files not yet visited.  Returns the project, the calls made and the
outcomes of the files attempted. -/
def batchLoop {W : Type} (env : BatchEnv W) :
    Nat → List String → W → W × List Event × List FileOutcome
  | _, [], w => (w, [], [])
  | i, file :: rest, w =>
    let r := guardedBody env i file w
    if r.1 ≠ FileOutcome.Success then
      (r.2.1, headEvents i ++ r.2.2, [r.1])
    else
      let w2 := env.OnRemoveTracks (env.OnSelectAll (env.ClearStates r.2.1))
      let t := batchLoop env (i + 1) rest w2
      (t.1, headEvents i ++ r.2.2 ++ resetEvents i ++ t.2.1, r.1 :: t.2.2)

/-- What a run leaves behind. -/
structure BatchRun (W : Type) where
  project : W
  trace : List Event
  outcomes : List FileOutcome
  shown : Bool

/-- `BatchProcessDialog::OnApplyToFiles` from line 384 on: `Hide()`,
`ReadChain(name)`, the loop, the final `OnRemoveTracks` and `Hide()`.
`name` is the selected chain and `files` the array after `files.Sort()`; the
handler reaches this point only with a chain selected, an empty project and a
confirmed file dialog.  `outcomes` has one entry per file, `NotAttempted` for
those the loop never reached. -/
def OnApplyToFiles {W : Type} (env : BatchEnv W) (name : String) (files : List String)
    (w : W) : BatchRun W :=
  let t := batchLoop env 0 files w
  { project := env.OnRemoveTracks t.1
    trace := [⟨none, Call.Hide⟩, ⟨none, Call.ReadChain name⟩] ++ t.2.1 ++
      [⟨none, Call.OnRemoveTracks⟩, ⟨none, Call.Hide⟩]
    outcomes := t.2.2 ++ List.replicate (files.length - t.2.2.length) FileOutcome.NotAttempted
    shown := false }

/-- What `ApplyChainToProject` leaves behind: `success` is `none` when the
function returned before calling `ApplyChain`. -/
structure ProjectRun (W : Type) where
  project : W
  trace : List Event
  success : Option Bool
  shown : Bool

/-- `BatchProcessDialog::ApplyChainToProject(iChain, bHasGui)`, with `name`
the text of row `iChain` of `mChains` and `shown` the visibility of the dialog
on entry. -/
def ApplyChainToProject {W : Type} (env : BatchEnv W) (name : String) (bHasGui : Bool)
    (w : W) (shown : Bool) : ProjectRun W :=
  if name = "" then { project := w, trace := [], success := none, shown := shown }
  else
    let pre : List Event :=
      [⟨none, Call.ActivityWinShow⟩] ++ (if bHasGui then [⟨none, Call.Hide⟩] else []) ++
      [⟨none, Call.PrefsWrite "/Batch/ActiveChain" name⟩, ⟨none, Call.ReadChain name⟩,
       ⟨none, Call.ApplyChain⟩]
    let shown1 := if bHasGui then false else shown
    let r := env.ApplyChain 0 w
    let success := r.1 == ApplyResult.returnedTrue
    if !bHasGui then { project := r.2, trace := pre, success := some success, shown := shown1 }
    else if !success then
      { project := r.2, trace := pre ++ [⟨none, Call.Show⟩], success := some success, shown := true }
    else
      { project := r.2, trace := pre ++ [⟨none, Call.Hide⟩], success := some success, shown := false }

/-- The overall result of a batch. -/
inductive RunOutcome where
  | Completed
  | Failed
  | Aborted
deriving DecidableEq, Repr

/-- The overall result read off the per-file outcomes: the first file that did
not succeed decides it. -/
def runOutcome : List FileOutcome → RunOutcome
  | [] => RunOutcome.Completed
  | FileOutcome.Success :: rest => runOutcome rest
  | FileOutcome.Aborted :: _ => RunOutcome.Aborted
  | _ :: _ => RunOutcome.Failed

/-- The paths handed to `Import`, in call order. -/
def importedFiles (trace : List Event) : List String :=
  trace.filterMap fun e =>
    match e.call with
    | Call.Import path => some path
    | _ => none

/-- The number of `ApplyChain` calls. -/
def applyChainCalls (trace : List Event) : Nat :=
  (trace.filter fun e => e.call == Call.ApplyChain).length

/-- The number of times the progress arrow was moved to a file:
`SetItemImage(i, 1, 1)`. -/
def advanceCalls (trace : List Event) : Nat :=
  (trace.filter fun e =>
    match e.call with
    | Call.SetItemImage _ 1 1 => true
    | _ => false).length

/-- Modelled from the spec: the `Workspace` capability (`isEmpty`, `importFile`,
`selectAll`, `clearHistory`, `removeAllContent`); the project classes are not
defined in this file.  Used as the concrete project in the examples. -/
structure Workspace where
  content : List String
  selected : List String
  history : Nat
deriving DecidableEq, Repr

/-- An environment over `Workspace` whose answers are given per iteration:
a successful import adds the file to the content and the history; applying the
chain adds a history state; `OnRemoveTracks` is the spec's
`removeAllContent`. -/
def sampleEnv (imports : Nat → ImportResult) (applies : Nat → ApplyResult)
    (isShown mAbort : Nat → Bool) (readOk : Bool) : BatchEnv Workspace where
  ReadChain := fun _ => readOk
  Import := fun i path w =>
    match imports i with
    | ImportResult.ok =>
      (ImportResult.ok, { w with content := w.content ++ [path], history := w.history + 1 })
    | r => (r, w)
  ZoomAfterImport := fun w => w
  OnSelectAll := fun w => { w with selected := w.content }
  ApplyChain := fun i w => (applies i, { w with history := w.history + 1 })
  IsShown := isShown
  mAbort := mAbort
  ClearStates := fun w => { w with history := 0 }
  OnRemoveTracks := fun w => { w with content := [], selected := [] }
  GetIsEmpty := fun w => w.content.isEmpty

/-- The empty project a batch starts from. -/
def emptyWorkspace : Workspace := { content := [], selected := [], history := 0 }

/-- Three files of which the import of the second returns a failure (without
throwing); the chain applies to every project and nobody cancels. -/
def importFailsEnv : BatchEnv Workspace :=
  sampleEnv (fun i => if i = 1 then ImportResult.failed else ImportResult.ok)
    (fun _ => ApplyResult.returnedTrue) (fun _ => true) (fun _ => false) true

/-- Every import and chain application succeeds; the progress window is still
shown when file 1 (index 0) tests it and no longer shown when file 2 does. -/
def cancelEnv : BatchEnv Workspace :=
  sampleEnv (fun _ => ImportResult.ok) (fun _ => ApplyResult.returnedTrue)
    (fun i => decide (i = 0)) (fun _ => false) true

/-- Everything succeeds and nobody cancels, but the store cannot resolve the
chain name: `ReadChain` answers `false`. -/
def noChainEnv : BatchEnv Workspace :=
  sampleEnv (fun _ => ImportResult.ok) (fun _ => ApplyResult.returnedTrue)
    (fun _ => true) (fun _ => false) false

/-- Everything succeeds and nobody cancels. -/
def happyEnv : BatchEnv Workspace :=
  sampleEnv (fun _ => ImportResult.ok) (fun _ => ApplyResult.returnedTrue)
    (fun _ => true) (fun _ => false) true

/-! ## Saving, closing and running from the editor -/

/-- `EditChainsDialog::SaveChanges()`: write the active chain name to the
preferences, write the chain when it has changed, clear `mChanged`.  Returns
the result, the dialog afterwards and the preference write made. -/
def EditChainsDialog.SaveChanges (env : StoreEnv) (s : EditChainsDialog) :
    Bool × EditChainsDialog × List Event :=
  let prefs : List Event := [⟨none, Call.PrefsWrite "/Batch/ActiveChain" s.mActiveChain⟩]
  if s.mChanged then
    let s1 := { s with storeCalls := s.storeCalls ++ [StoreCall.WriteChain s.mActiveChain] }
    if !env.WriteChain s.mActiveChain s.mChain then (false, s1, prefs)
    else (true, { s1 with mChanged := false }, prefs)
  else (true, { s with mChanged := false }, prefs)

/-- `EditChainsDialog::OnOK`. -/
def EditChainsDialog.OnOK (env : StoreEnv) (s : EditChainsDialog) :
    EditChainsDialog × List Event :=
  let r := EditChainsDialog.SaveChanges env s
  if !r.1 then (r.2.1, r.2.2)
  else ({ r.2.1 with shown := false }, r.2.2 ++ [⟨none, Call.Hide⟩])

/-- `EditChainsDialog::OnCancel`, with `id` the button the message box of
`ChangeOK` returns when it is shown. -/
def EditChainsDialog.OnCancel (env : StoreEnv) (id : Int) (s : EditChainsDialog) :
    EditChainsDialog :=
  let r := ChangeOK env id s
  if !r.1 then r.2 else { r.2 with shown := false }

/-- `BatchProcessDialog::OnApplyToProject`: `item` is the selected row of the
chains list (`-1` when there is none, which ends in a message box), `bHasGui`
the default argument `ApplyChainToProject` is declared with in
BatchProcessDialog.h.  `none` when no run was started. -/
def BatchProcessDialog.OnApplyToProject {W : Type} (env : BatchEnv W) (bHasGui : Bool)
    (mChains : List String) (item : Int) (w : W) (shown : Bool) : Option (ProjectRun W) :=
  if item = -1 then none
  else some (ApplyChainToProject env (GetItemText mChains item) bHasGui w shown)

/-- `BatchProcessDialog::OnApplyToFiles`, the whole handler: no chain selected
ends in a message box; the chain name is written to the preferences; a project
that is not empty ends in a message box; `dlog` is `none` when the file dialog
was not confirmed and otherwise holds the paths after `files.Sort()`.
Returns the preference write and the run, `none` when no run was started. -/
def BatchProcessDialog.OnApplyToFiles {W : Type} (env : BatchEnv W) (mChains : List String)
    (item : Int) (dlog : Option (List String)) (w : W) : List Event × Option (BatchRun W) :=
  if item = -1 then ([], none)
  else
    let name := GetItemText mChains item
    let prefs : List Event := [⟨none, Call.PrefsWrite "/Batch/ActiveChain" name⟩]
    if !env.GetIsEmpty w then (prefs, none)
    else
      match dlog with
      | none => (prefs, none)
      | some files => (prefs, some (Audacity.OnApplyToFiles env name files w))

/-- What an apply handler of the editor leaves behind: the dialog, the calls
the handler made itself, and the run it started, if any. -/
structure EditorRun (W : Type) where
  dialog : EditChainsDialog
  trace : List Event
  projectRun : Option (ProjectRun W)
  filesRun : Option (BatchRun W)

/-- `EditChainsDialog::OnApplyToProject`. -/
def EditChainsDialog.OnApplyToProject {W : Type} (store : StoreEnv) (env : BatchEnv W)
    (bHasGui : Bool) (s : EditChainsDialog) (w : W) : EditorRun W :=
  let r := EditChainsDialog.SaveChanges store s
  if !r.1 then { dialog := r.2.1, trace := r.2.2, projectRun := none, filesRun := none }
  else
    let run := BatchProcessDialog.OnApplyToProject env bHasGui r.2.1.mChains
      r.2.1.mChainsSelected w r.2.1.shown
    let shown := match run with
      | some pr => pr.shown
      | none => r.2.1.shown
    { dialog := { r.2.1 with shown := shown }, trace := r.2.2, projectRun := run,
      filesRun := none }

/-- `EditChainsDialog::OnApplyToFiles`. -/
def EditChainsDialog.OnApplyToFiles {W : Type} (store : StoreEnv) (env : BatchEnv W)
    (dlog : Option (List String)) (s : EditChainsDialog) (w : W) : EditorRun W :=
  let r := EditChainsDialog.SaveChanges store s
  if !r.1 then { dialog := r.2.1, trace := r.2.2, projectRun := none, filesRun := none }
  else
    let run := BatchProcessDialog.OnApplyToFiles env r.2.1.mChains r.2.1.mChainsSelected dlog w
    let shown := match run.2 with
      | some br => br.shown
      | none => r.2.1.shown
    { dialog := { r.2.1 with shown := shown }, trace := r.2.2 ++ run.1, projectRun := none,
      filesRun := run.2 }

/-- A store on which every write fails. -/
def readOnlyStore : StoreEnv :=
  { sampleStore ["Loud"] [] [] with WriteChain := fun _ _ => false }

/-- The sample editor with unsaved changes. -/
def dirtyEditor : EditChainsDialog := { sampleEditor 1 with mChanged := true }

/-- An editor showing a chain of exactly one step, with that step selected. -/
def oneStepEditor : EditChainsDialog :=
  PopulateList { sampleEditor 0 with mChain := [Step.mk "Normalize" ""], mSelectedCommand := 0 }

/-- Imports succeed and nobody cancels, but `ApplyChain` returns false. -/
def failingChainEnv : BatchEnv Workspace :=
  sampleEnv (fun _ => ImportResult.ok) (fun _ => ApplyResult.returnedFalse)
    (fun _ => true) (fun _ => false) true

/-- The value of `mSelectedCommand` names a row of the list as `PopulateList`
builds it: a stored step or the END row after the last of them. -/
def ValidSelection (s : EditChainsDialog) : Prop :=
  0 ≤ s.mSelectedCommand ∧ s.mSelectedCommand ≤ (s.mChain.length : Int)

/-! # Theorems -/

/-! ## Lemmas on the chain primitives -/

theorem PopulateList_mChain (s : EditChainsDialog) : (PopulateList s).mChain = s.mChain := rfl

theorem PopulateList_mChanged (s : EditChainsDialog) : (PopulateList s).mChanged = s.mChanged := rfl

theorem split_two (l : List Step) (n : Nat) (h : n + 1 < l.length) :
    ∃ a x y b, l = a ++ x :: y :: b ∧ a.length = n := by
  induction n generalizing l with
  | zero =>
    match l, h with
    | x :: y :: b, _ => exact ⟨[], x, y, b, rfl, rfl⟩
  | succ n ih =>
    match l, h with
    | z :: t, h =>
      have ht : n + 1 < t.length := by simpa using h
      obtain ⟨a, x, y, b, hl, ha⟩ := ih t ht
      exact ⟨z :: a, x, y, b, by simp [hl], by simp [ha]⟩

theorem AddToChain_at (a b : List Step) (command params : String) :
    AddToChain (a ++ b) command params (a.length : Int) = a ++ Step.mk command params :: b := by
  simp [AddToChain]

theorem DeleteFromChain_at (a b : List Step) (x : Step) :
    DeleteFromChain (a ++ x :: b) (a.length : Int) = a ++ b := by
  have h : ¬ ((a.length : Int) < 0) := by omega
  simp [DeleteFromChain, h, List.eraseIdx_append_of_length_le]

theorem get?_mid (a b : List Step) (x : Step) : (a ++ x :: b).get? a.length = some x := by
  induction a with
  | nil => rfl
  | cons z t ih => simpa using ih

theorem GetCommand_at (a b : List Step) (x : Step) :
    GetCommand (a ++ x :: b) (a.length : Int) = x.command := by
  have h : ¬ ((a.length : Int) < 0) := by omega
  simp only [GetCommand, h, if_false, Int.toNat_ofNat, get?_mid]
  rfl

theorem GetParams_at (a b : List Step) (x : Step) :
    GetParams (a ++ x :: b) (a.length : Int) = x.params := by
  have h : ¬ ((a.length : Int) < 0) := by omega
  simp only [GetParams, h, if_false, Int.toNat_ofNat, get?_mid]
  rfl

/-! ## Step-list operations -/

theorem OnUp_result (s : EditChainsDialog) (a b : List Step) (x y : Step)
    (hd : Displayed s) (hl : s.mChain = a ++ x :: y :: b)
    (hsel : s.mList.GetNextItem = (a.length : Int) + 1) :
    OnUp s = PopulateList { s with
      mChain := a ++ y :: x :: b, mChanged := true, mSelectedCommand := (a.length : Int) } := by
  have hc : s.mList.GetItemCount = (a.length : Int) + (b.length : Int) + 3 := by
    rw [hd, hl]; simp; omega
  have e1 : (a.length : Int) + 1 = ((a ++ [x]).length : Int) := by simp
  have e2 : (a.length : Int) + 1 + 1 = ((a ++ [y, x]).length : Int) := by simp; omega
  have l1 : a ++ x :: y :: b = (a ++ [x]) ++ y :: b := by simp
  have l2 : a ++ y :: x :: y :: b = (a ++ [y, x]) ++ y :: b := by simp
  have hg : ¬ ((a.length : Int) + 1 = -1 ∨ (a.length : Int) + 1 = 0 ∨
      (a.length : Int) + 1 + 1 = (a.length : Int) + (b.length : Int) + 3) := by omega
  simp only [OnUp, hsel, hc, hg, if_false, hl, add_sub_cancel_right]
  rw [AddToChain_at]
  rw [e1, l1, GetCommand_at, GetParams_at, ← e1, e2, l2, DeleteFromChain_at]
  simp

theorem OnDown_result (s : EditChainsDialog) (a b : List Step) (x y : Step)
    (hd : Displayed s) (hl : s.mChain = a ++ x :: y :: b)
    (hsel : s.mList.GetNextItem = (a.length : Int)) :
    OnDown s = PopulateList { s with
      mChain := a ++ y :: x :: b, mChanged := true, mSelectedCommand := (a.length : Int) + 1 } := by
  have hc : s.mList.GetItemCount = (a.length : Int) + (b.length : Int) + 3 := by
    rw [hd, hl]; simp; omega
  have e2 : (a.length : Int) + 2 = ((a ++ [x, y]).length : Int) := by simp
  have l2 : a ++ x :: y :: b = (a ++ [x, y]) ++ b := by simp
  have l3 : a ++ [x, y] ++ Step.mk x.command x.params :: b = a ++ x :: (y :: x :: b) := by simp
  have hg : ¬ ((a.length : Int) = -1 ∨
      (a.length : Int) + 2 ≥ (a.length : Int) + (b.length : Int) + 3) := by omega
  simp only [OnDown, hsel, hc, hg, if_false, hl]
  rw [GetCommand_at, GetParams_at, e2, l2, AddToChain_at, l3, DeleteFromChain_at]

theorem AddItem_rows_length (names : List (String × String)) (l : ListCtrl) (x y : String) :
    (AddItem names l x y).rows.length = l.rows.length + 1 := by
  simp [AddItem]

theorem SetItemState_rows (l : ListCtrl) (item : Int) : (l.SetItemState item).rows = l.rows := by
  unfold ListCtrl.SetItemState
  split <;> rfl

theorem foldl_AddItem_length (names : List (String × String)) (chain : List Step) (l : ListCtrl) :
    (chain.foldl (fun l st => AddItem names l st.command st.params) l).rows.length
      = l.rows.length + chain.length := by
  induction chain generalizing l with
  | nil => simp
  | cons st t ih =>
    rw [List.foldl_cons, ih, AddItem_rows_length, List.length_cons]
    omega

theorem endList_length (s : EditChainsDialog) :
    (AddItem s.mCommandNames
      (s.mChain.foldl (fun l st => AddItem s.mCommandNames l st.command st.params)
        s.mList.DeleteAllItems) "- END -" "").rows.length = s.mChain.length + 1 := by
  rw [AddItem_rows_length, foldl_AddItem_length]
  simp [ListCtrl.DeleteAllItems]

theorem PopulateList_count (s : EditChainsDialog) :
    (PopulateList s).mList.GetItemCount = s.mChain.length + 1 := by
  simp only [PopulateList, ListCtrl.GetItemCount, SetItemState_rows, endList_length]
  push_cast
  rfl

theorem PopulateList_Displayed (s : EditChainsDialog) : Displayed (PopulateList s) := by
  unfold Displayed
  rw [PopulateList_count, PopulateList_mChain]

theorem PopulateList_selected (s : EditChainsDialog) (h0 : 0 ≤ s.mSelectedCommand)
    (h1 : s.mSelectedCommand ≤ s.mChain.length) :
    (PopulateList s).mList.GetNextItem = s.mSelectedCommand := by
  have hlen := endList_length s
  have hge : ¬ (s.mSelectedCommand ≥ ((s.mChain.length + 1 : Nat) : Int)) := by omega
  have hin : 0 ≤ s.mSelectedCommand ∧ s.mSelectedCommand < ((s.mChain.length + 1 : Nat) : Int) := by
    omega
  simp only [PopulateList, ListCtrl.SetItemState, ListCtrl.GetItemCount, ListCtrl.GetNextItem,
    hlen, hge, hin, if_false, and_self, if_true]

theorem InsertCommandAt_result (s : EditChainsDialog) (d : BatchCommandDialog) (i : Nat)
    (hshow : d.ShowModal ≠ 0) (hcmd : d.mSelectedCommand ≠ "") :
    InsertCommandAt s d i = PopulateList { s with
      mChain := s.mChain.take i ++ Step.mk d.mSelectedCommand d.mSelectedParameters :: s.mChain.drop i
      mChanged := true
      mSelectedCommand := (i : Int) + 1 } := by
  have h1 : ¬ ((i : Int) = -1) := by omega
  simp [InsertCommandAt, h1, hshow, hcmd, AddToChain]

/-- C8: for a step list of length len and an index i in [0, len],
InsertCommandAt(i) with a confirmed dialog and a non-empty chosen command gives
a list of length len + 1 whose element at i is the new (command, params) step
and which, with that element taken out again, is the old list: the other
steps are the old ones in their original order. -/
theorem C8_InsertCommandAt_inserts (s : EditChainsDialog) (d : BatchCommandDialog) (i : Nat)
    (hi : i ≤ s.mChain.length) (hshow : d.ShowModal ≠ 0) (hcmd : d.mSelectedCommand ≠ "") :
    (InsertCommandAt s d i).mChain.length = s.mChain.length + 1 ∧
    (InsertCommandAt s d i).mChain.get? i
      = some (Step.mk d.mSelectedCommand d.mSelectedParameters) ∧
    (InsertCommandAt s d i).mChain.eraseIdx i = s.mChain := by
  rw [InsertCommandAt_result s d i hshow hcmd, PopulateList_mChain]
  have hlen : (s.mChain.take i).length = i := by simp [hi]
  refine ⟨?_, ?_, ?_⟩
  · simp; omega
  · have h := get?_mid (s.mChain.take i) (s.mChain.drop i)
      (Step.mk d.mSelectedCommand d.mSelectedParameters)
    rw [hlen] at h
    exact h
  · have h := List.eraseIdx_append_of_length_le (l := s.mChain.take i) (k := i) (by omega)
      (Step.mk d.mSelectedCommand d.mSelectedParameters :: s.mChain.drop i)
    simp only [hlen, Nat.sub_self, List.eraseIdx_cons_zero, List.take_append_drop] at h
    exact h

theorem C8_InsertCommandAt_inserts_witness :
    (InsertCommandAt (sampleEditor 1) ⟨1, "Amplify", "3dB"⟩ (3 : Nat)).mChain.length
      = (sampleEditor 1).mChain.length + 1 ∧
    (InsertCommandAt (sampleEditor 1) ⟨1, "Amplify", "3dB"⟩ (3 : Nat)).mChain.get? 3
      = some (Step.mk "Amplify" "3dB") ∧
    (InsertCommandAt (sampleEditor 1) ⟨1, "Amplify", "3dB"⟩ (3 : Nat)).mChain.eraseIdx 3
      = (sampleEditor 1).mChain :=
  C8_InsertCommandAt_inserts (sampleEditor 1) ⟨1, "Amplify", "3dB"⟩ 3
    (by decide) (by decide) (by decide)

/-- C9: with the list showing the chain, OnUp on the row i of a real step with
i >= 1 exchanges the steps at i-1 and i (the chain a ++ x :: y :: b with x at
i-1 becomes a ++ y :: x :: b), and OnDown on a row i with i+1 a real step
exchanges the steps at i and i+1; every other step stays where it was. -/
theorem C9_OnUp_OnDown_swap (s : EditChainsDialog) (hd : Displayed s) :
    (∀ i : Nat, 1 ≤ i → i < s.mChain.length → s.mList.GetNextItem = (i : Int) →
      ∃ a x y b, s.mChain = a ++ x :: y :: b ∧ a.length + 1 = i ∧
        (OnUp s).mChain = a ++ y :: x :: b) ∧
    (∀ i : Nat, i + 1 < s.mChain.length → s.mList.GetNextItem = (i : Int) →
      ∃ a x y b, s.mChain = a ++ x :: y :: b ∧ a.length = i ∧
        (OnDown s).mChain = a ++ y :: x :: b) := by
  constructor
  · intro i h1 h2 hsel
    obtain ⟨a, x, y, b, hl, ha⟩ := split_two s.mChain (i - 1) (by omega)
    refine ⟨a, x, y, b, hl, by omega, ?_⟩
    have hsel2 : s.mList.GetNextItem = (a.length : Int) + 1 := by rw [hsel]; omega
    rw [OnUp_result s a b x y hd hl hsel2, PopulateList_mChain]
  · intro i h1 hsel
    obtain ⟨a, x, y, b, hl, ha⟩ := split_two s.mChain i h1
    refine ⟨a, x, y, b, hl, ha, ?_⟩
    have hsel2 : s.mList.GetNextItem = (a.length : Int) := by rw [hsel, ha]
    rw [OnDown_result s a b x y hd hl hsel2, PopulateList_mChain]

theorem C9_OnUp_OnDown_swap_witness :
    (∃ a x y b, (sampleEditor 1).mChain = a ++ x :: y :: b ∧ a.length + 1 = 1 ∧
        (OnUp (sampleEditor 1)).mChain = a ++ y :: x :: b) ∧
    (∃ a x y b, (sampleEditor 1).mChain = a ++ x :: y :: b ∧ a.length = 1 ∧
        (OnDown (sampleEditor 1)).mChain = a ++ y :: x :: b) :=
  ⟨(C9_OnUp_OnDown_swap (sampleEditor 1) (PopulateList_Displayed _)).1 1
      (by decide) (by decide) (by decide),
   (C9_OnUp_OnDown_swap (sampleEditor 1) (PopulateList_Displayed _)).2 1
      (by decide) (by decide)⟩

/-- C10: with the list showing the chain and a row i strictly between the first
and the last real step selected, OnUp leaves row i-1 selected, and OnDown run
next (so on i-1) gives back the original step list. -/
theorem C10_OnUp_then_OnDown_restores (s : EditChainsDialog) (i : Nat) (hd : Displayed s)
    (hsel : s.mList.GetNextItem = (i : Int)) (h0 : 0 < i) (h1 : i + 1 < s.mChain.length) :
    (OnUp s).mList.GetNextItem = (i : Int) - 1 ∧ (OnDown (OnUp s)).mChain = s.mChain := by
  obtain ⟨a, x, y, b, hl, ha⟩ := split_two s.mChain (i - 1) (by omega)
  have hsel2 : s.mList.GetNextItem = (a.length : Int) + 1 := by rw [hsel]; omega
  have hup := OnUp_result s a b x y hd hl hsel2
  have hsel3 : (OnUp s).mList.GetNextItem = (a.length : Int) := by
    rw [hup]
    rw [PopulateList_selected]
    · simp
    · simp; omega
  have hd3 : Displayed (OnUp s) := by rw [hup]; exact PopulateList_Displayed _
  have hl3 : (OnUp s).mChain = a ++ y :: x :: b := by rw [hup, PopulateList_mChain]
  refine ⟨by rw [hsel3]; omega, ?_⟩
  rw [OnDown_result (OnUp s) a b y x hd3 hl3 hsel3, PopulateList_mChain, hl]

theorem C10_OnUp_then_OnDown_restores_witness :
    (OnUp (sampleEditor 1)).mList.GetNextItem = ((1 : Nat) : Int) - 1 ∧
      (OnDown (OnUp (sampleEditor 1))).mChain = (sampleEditor 1).mChain :=
  C10_OnUp_then_OnDown_restores (sampleEditor 1) 1 (PopulateList_Displayed _)
    (by decide) (by decide) (by decide)

theorem split_one (l : List Step) (n : Nat) (h : n < l.length) :
    ∃ a x b, l = a ++ x :: b ∧ a.length = n := by
  induction n generalizing l with
  | zero =>
    match l, h with
    | x :: b, _ => exact ⟨[], x, b, rfl, rfl⟩
  | succ n ih =>
    match l, h with
    | z :: t, h =>
      have ht : n < t.length := by simpa using h
      obtain ⟨a, x, b, hl, ha⟩ := ih t ht
      exact ⟨z :: a, x, b, by simp [hl], by simp [ha]⟩

theorem OnDelete_result (s : EditChainsDialog) (a b : List Step) (x : Step)
    (hd : Displayed s) (hl : s.mChain = a ++ x :: b)
    (hsel : s.mList.GetNextItem = (a.length : Int)) :
    OnDelete s = PopulateList { s with
      mChain := a ++ b
      mChanged := true
      mSelectedCommand :=
        if (a.length : Int) ≥ s.mList.GetItemCount - 2 ∧ (a.length : Int) ≥ 0
        then (a.length : Int) - 1 else (a.length : Int) } := by
  have hc : s.mList.GetItemCount = (a.length : Int) + (b.length : Int) + 2 := by
    rw [hd, hl]; simp; omega
  have hg : ¬ ((a.length : Int) = -1 ∨
      (a.length : Int) + 1 = (a.length : Int) + (b.length : Int) + 2) := by omega
  simp only [OnDelete, hsel, hc, hg, if_false, hl, DeleteFromChain_at]

theorem OnEditCommandParams_result (s : EditChainsDialog) (d : BatchCommandDialog)
    (prompt : String → String → String) (a b : List Step) (x : Step)
    (hd : Displayed s) (hl : s.mChain = a ++ x :: b)
    (hsel : s.mList.GetNextItem = (a.length : Int)) :
    OnEditCommandParams s d prompt = PopulateList { s with
      mChain := a ++ Step.mk x.command (wxTrim (prompt x.command x.params)) :: b
      mChanged := true
      mSelectedCommand := (a.length : Int) } := by
  have hc : s.mList.GetItemCount = (a.length : Int) + (b.length : Int) + 2 := by
    rw [hd, hl]; simp; omega
  have hg : ¬ ((a.length : Int) < 0 ∨
      (a.length : Int) + 1 = (a.length : Int) + (b.length : Int) + 2) := by omega
  simp only [OnEditCommandParams, hsel, hc, hg, if_false, hl, DeleteFromChain_at,
    GetCommand_at, GetParams_at, AddToChain_at]

/-- C3 (as stated) fails: with a fixed chain loaded, OnDelete on its first step
changes the step list and the dirty flag. -/
theorem C3_fixed_chain_is_edited :
    fixedStore.IsFixed fixedEditor.mActiveChain = true ∧
    (OnDelete fixedEditor).mChain ≠ fixedEditor.mChain ∧
    (OnDelete fixedEditor).mChanged ≠ fixedEditor.mChanged := by
  decide

/-- C3 (amended): the step-list operations do not consult IsFixed.  With a
fixed chain loaded and shown, insert adds the step, delete removes the selected
step, up and down exchange neighbours, edit replaces the parameters of the
selected step, and each sets mChanged.  What a fixed chain does reject is
label editing (OnChainsBeginEdit vetoes), and selecting it in the expanded
editor disables Remove and Rename and enables Defaults. -/
theorem C3_fixed_chain_operations (env : StoreEnv) (s : EditChainsDialog)
    (hfix : env.IsFixed s.mActiveChain = true) (hd : Displayed s) :
    (∀ (d : BatchCommandDialog) (i : Nat), i ≤ s.mChain.length → d.ShowModal ≠ 0 →
      d.mSelectedCommand ≠ "" →
      (InsertCommandAt s d i).mChain = s.mChain.take i ++
        Step.mk d.mSelectedCommand d.mSelectedParameters :: s.mChain.drop i ∧
      (InsertCommandAt s d i).mChanged = true) ∧
    (∀ i : Nat, i < s.mChain.length → s.mList.GetNextItem = (i : Int) →
      (∃ a x b, s.mChain = a ++ x :: b ∧ a.length = i ∧ (OnDelete s).mChain = a ++ b) ∧
      (OnDelete s).mChanged = true) ∧
    (∀ i : Nat, 1 ≤ i → i < s.mChain.length → s.mList.GetNextItem = (i : Int) →
      (∃ a x y b, s.mChain = a ++ x :: y :: b ∧ a.length + 1 = i ∧
        (OnUp s).mChain = a ++ y :: x :: b) ∧
      (OnUp s).mChanged = true) ∧
    (∀ i : Nat, i + 1 < s.mChain.length → s.mList.GetNextItem = (i : Int) →
      (∃ a x y b, s.mChain = a ++ x :: y :: b ∧ a.length = i ∧
        (OnDown s).mChain = a ++ y :: x :: b) ∧
      (OnDown s).mChanged = true) ∧
    (∀ (d : BatchCommandDialog) (prompt : String → String → String) (i : Nat),
      i < s.mChain.length → s.mList.GetNextItem = (i : Int) →
      (∃ a x b, s.mChain = a ++ x :: b ∧ a.length = i ∧
        (OnEditCommandParams s d prompt).mChain
          = a ++ Step.mk x.command (wxTrim (prompt x.command x.params)) :: b) ∧
      (OnEditCommandParams s d prompt).mChanged = true) ∧
    OnChainsBeginEdit env s = true ∧
    (∀ (id item : Int) (t : EditChainsDialog), t.mChanged = false → t.mbExpanded = true →
      GetItemText t.mChains item = s.mActiveChain →
      (OnChainSelected env id item t).2.mRemoveEnabled = false ∧
      (OnChainSelected env id item t).2.mRenameEnabled = false ∧
      (OnChainSelected env id item t).2.mDefaultsEnabled = true) := by
  refine ⟨?_, ?_, ?_, ?_, ?_, ?_, ?_⟩
  · intro d i _ hshow hcmd
    rw [InsertCommandAt_result s d i hshow hcmd]
    exact ⟨rfl, rfl⟩
  · intro i hi hsel
    obtain ⟨a, x, b, hl, ha⟩ := split_one s.mChain i hi
    have hsel2 : s.mList.GetNextItem = (a.length : Int) := by rw [hsel, ha]
    rw [OnDelete_result s a b x hd hl hsel2]
    exact ⟨⟨a, x, b, hl, ha, rfl⟩, rfl⟩
  · intro i h1 h2 hsel
    obtain ⟨a, x, y, b, hl, ha⟩ := split_two s.mChain (i - 1) (by omega)
    have hsel2 : s.mList.GetNextItem = (a.length : Int) + 1 := by rw [hsel]; omega
    rw [OnUp_result s a b x y hd hl hsel2]
    exact ⟨⟨a, x, y, b, hl, by omega, rfl⟩, rfl⟩
  · intro i h1 hsel
    obtain ⟨a, x, y, b, hl, ha⟩ := split_two s.mChain i h1
    have hsel2 : s.mList.GetNextItem = (a.length : Int) := by rw [hsel, ha]
    rw [OnDown_result s a b x y hd hl hsel2]
    exact ⟨⟨a, x, y, b, hl, ha, rfl⟩, rfl⟩
  · intro d prompt i hi hsel
    obtain ⟨a, x, b, hl, ha⟩ := split_one s.mChain i hi
    have hsel2 : s.mList.GetNextItem = (a.length : Int) := by rw [hsel, ha]
    rw [OnEditCommandParams_result s d prompt a b x hd hl hsel2]
    exact ⟨⟨a, x, b, hl, ha, rfl⟩, rfl⟩
  · simp [OnChainsBeginEdit, hfix]
  · intro id item t hch hexp hname
    simp [OnChainSelected, ChangeOK, hch, hexp, hname, hfix, PopulateList]

theorem C3_fixed_chain_operations_witness :
    ((∃ a x b, fixedEditor.mChain = a ++ x :: b ∧ a.length = 0 ∧
        (OnDelete fixedEditor).mChain = a ++ b) ∧
      (OnDelete fixedEditor).mChanged = true) ∧
    OnChainsBeginEdit fixedStore fixedEditor = true :=
  ⟨(C3_fixed_chain_operations fixedStore fixedEditor (by decide) (by decide)).2.1 0
      (by decide) (by decide),
   (C3_fixed_chain_operations fixedStore fixedEditor (by decide) (by decide)).2.2.2.2.2.1⟩

theorem ChangeOK_storeCalls (env : StoreEnv) (id : Int) (s : EditChainsDialog) (c : StoreCall)
    (h : c ∈ s.storeCalls) : c ∈ (ChangeOK env id s).2.storeCalls := by
  unfold ChangeOK
  split_ifs <;> simp [h]

theorem OnChainSelected_storeCalls (env : StoreEnv) (id item : Int) (s : EditChainsDialog)
    (c : StoreCall) (h : c ∈ s.storeCalls) :
    c ∈ (OnChainSelected env id item s).2.storeCalls := by
  have h1 := ChangeOK_storeCalls env id s c h
  dsimp only [OnChainSelected]
  split_ifs <;> simp [PopulateList, h1]

theorem PopulateChains_storeCalls (env : StoreEnv) (id : Int) (s : EditChainsDialog)
    (c : StoreCall) (h : c ∈ s.storeCalls) : c ∈ (PopulateChains env id s).storeCalls := by
  dsimp only [PopulateChains]
  split_ifs <;> first
    | (apply OnChainSelected_storeCalls; simpa using h)
    | simpa using h

theorem OnChainsEndEdit_calls_RenameChain (env : StoreEnv) (id : Int) (newname : String)
    (s : EditChainsDialog) :
    StoreCall.RenameChain s.mActiveChain newname
      ∈ (OnChainsEndEdit env id false newname s).storeCalls := by
  simp only [OnChainsEndEdit, Bool.false_eq_true, if_false]
  apply PopulateChains_storeCalls
  simp

/-- C4 at the failing input: the active chain "Soft" is renamed to "a/b".
The new name contains the path separator, yet OnChainsEndEdit calls
RenameChain("Soft", "a/b") and mActiveChain does not keep its old value,
while OnAdd, given the same name, makes no store call at all. -/
theorem C4_OnChainsEndEdit_accepts_separator :
    "a/b".toList.contains wxFILE_SEP_PATH_UNIX = true ∧
    softEditor.mActiveChain = "Soft" ∧
    StoreCall.RenameChain "Soft" "a/b"
      ∈ (OnChainsEndEdit twoChainStore wxNO false "a/b" softEditor).storeCalls ∧
    (OnChainsEndEdit twoChainStore wxNO false "a/b" softEditor).mActiveChain ≠ "Soft" ∧
    (OnAdd twoChainStore wxNO wxFILE_SEP_PATH_UNIX [some "a/b"] softEditor).storeCalls
      = softEditor.storeCalls := by
  decide

/-! ## Batch runs -/

/-- C1 at the failing input: files [f1, f2, f3], the import of f2 returns a
failure.  The loop discards that value: the chain is applied to f2 as well,
f3 is imported, and the chain is applied three times. -/
theorem C1_returned_import_failure_ignored :
    (importFailsEnv.Import 1 "f2" emptyWorkspace).1 = ImportResult.failed ∧
    (OnApplyToFiles importFailsEnv "Loud" ["f1", "f2", "f3"] emptyWorkspace).outcomes
      = [FileOutcome.Success, FileOutcome.Success, FileOutcome.Success] ∧
    importedFiles (OnApplyToFiles importFailsEnv "Loud" ["f1", "f2", "f3"] emptyWorkspace).trace
      = ["f1", "f2", "f3"] ∧
    applyChainCalls (OnApplyToFiles importFailsEnv "Loud" ["f1", "f2", "f3"] emptyWorkspace).trace
      = 3 := by
  decide

/-- C2 (as stated) fails: the window is shown at file 1's test and gone before
file 2 starts, yet file 2 is imported and the chain applied to it: two files
are imported and chain-applied, not one. -/
theorem C2_cancel_seen_only_after_second_file :
    cancelEnv.IsShown 0 = true ∧ cancelEnv.mAbort 0 = false ∧ cancelEnv.IsShown 1 = false ∧
    importedFiles (OnApplyToFiles cancelEnv "Loud" ["f1", "f2", "f3"] emptyWorkspace).trace
      = ["f1", "f2"] ∧
    applyChainCalls (OnApplyToFiles cancelEnv "Loud" ["f1", "f2", "f3"] emptyWorkspace).trace
      = 2 := by
  decide

/-- C5 (as stated) fails: the store cannot resolve the name, yet
ApplyChainToProject calls ApplyChain, and OnApplyToFiles imports both files,
applies the chain to each and removes tracks. -/
theorem C5_unresolved_chain_still_runs :
    noChainEnv.ReadChain "NoSuchChain" = false ∧
    (⟨none, Call.ApplyChain⟩ : Event)
      ∈ (ApplyChainToProject noChainEnv "NoSuchChain" true emptyWorkspace true).trace ∧
    importedFiles (OnApplyToFiles noChainEnv "NoSuchChain" ["f1", "f2"] emptyWorkspace).trace
      = ["f1", "f2"] ∧
    applyChainCalls (OnApplyToFiles noChainEnv "NoSuchChain" ["f1", "f2"] emptyWorkspace).trace
      = 2 ∧
    (⟨some 0, Call.OnRemoveTracks⟩ : Event)
      ∈ (OnApplyToFiles noChainEnv "NoSuchChain" ["f1", "f2"] emptyWorkspace).trace := by
  decide

/-- C7: a batch of two files in which both imports succeed, ApplyChain returns
true for both, the progress window stays shown and mAbort stays false: both
files succeed (the run is Completed), both are imported in order and the chain
is applied twice, the progress arrow is moved exactly twice, and the project
is empty at the end (given that removing tracks after select-all empties the
project and that removing tracks keeps an empty project empty). -/
theorem C7_two_file_batch_completes {W : Type} (env : BatchEnv W) (name a b : String) (w : W)
    (hi0 : ∀ v, (env.Import 0 a v).1 = ImportResult.ok)
    (hi1 : ∀ v, (env.Import 1 b v).1 = ImportResult.ok)
    (ha0 : ∀ v, (env.ApplyChain 0 v).1 = ApplyResult.returnedTrue)
    (ha1 : ∀ v, (env.ApplyChain 1 v).1 = ApplyResult.returnedTrue)
    (hs0 : env.IsShown 0 = true) (hs1 : env.IsShown 1 = true)
    (hm0 : env.mAbort 0 = false) (hm1 : env.mAbort 1 = false)
    (hsel : ∀ v, env.GetIsEmpty (env.OnRemoveTracks (env.OnSelectAll v)) = true)
    (hemp : ∀ v, env.GetIsEmpty v = true → env.GetIsEmpty (env.OnRemoveTracks v) = true) :
    (OnApplyToFiles env name [a, b] w).outcomes = [FileOutcome.Success, FileOutcome.Success] ∧
    runOutcome (OnApplyToFiles env name [a, b] w).outcomes = RunOutcome.Completed ∧
    importedFiles (OnApplyToFiles env name [a, b] w).trace = [a, b] ∧
    applyChainCalls (OnApplyToFiles env name [a, b] w).trace = 2 ∧
    advanceCalls (OnApplyToFiles env name [a, b] w).trace = 2 ∧
    env.GetIsEmpty (OnApplyToFiles env name [a, b] w).project = true := by
  have g0 : ∀ v, (guardedBody env 0 a v).1 = FileOutcome.Success := by
    intro v; simp [guardedBody, hi0, ha0, hs0, hm0]
  have g1 : ∀ v, (guardedBody env 1 b v).1 = FileOutcome.Success := by
    intro v; simp [guardedBody, hi1, ha1, hs1, hm1]
  have t0 : ∀ v, (guardedBody env 0 a v).2.2 =
      [⟨some 0, Call.Import a⟩, ⟨some 0, Call.ZoomAfterImport⟩,
       ⟨some 0, Call.OnSelectAll⟩, ⟨some 0, Call.ApplyChain⟩] := by
    intro v; simp [guardedBody, hi0, ha0, hs0, hm0]
  have t1 : ∀ v, (guardedBody env 1 b v).2.2 =
      [⟨some 1, Call.Import b⟩, ⟨some 1, Call.ZoomAfterImport⟩,
       ⟨some 1, Call.OnSelectAll⟩, ⟨some 1, Call.ApplyChain⟩] := by
    intro v; simp [guardedBody, hi1, ha1, hs1, hm1]
  refine ⟨?_, ?_, ?_, ?_, ?_, ?_⟩
  · simp [OnApplyToFiles, batchLoop, g0, g1]
  · simp [OnApplyToFiles, batchLoop, g0, g1, runOutcome]
  · simp [OnApplyToFiles, batchLoop, g0, g1, t0, t1, importedFiles, headEvents, resetEvents]
  · simp [OnApplyToFiles, batchLoop, g0, g1, t0, t1, applyChainCalls, headEvents, resetEvents]
  · simp [OnApplyToFiles, batchLoop, g0, g1, t0, t1, advanceCalls, headEvents, resetEvents]
  · simp only [OnApplyToFiles, batchLoop, g0, g1, ne_eq, not_true_eq_false, if_false]
    exact hemp _ (hsel _)

theorem C7_two_file_batch_completes_witness :
    (OnApplyToFiles happyEnv "Loud" ["a.wav", "b.wav"] emptyWorkspace).outcomes
      = [FileOutcome.Success, FileOutcome.Success] ∧
    runOutcome (OnApplyToFiles happyEnv "Loud" ["a.wav", "b.wav"] emptyWorkspace).outcomes
      = RunOutcome.Completed ∧
    importedFiles (OnApplyToFiles happyEnv "Loud" ["a.wav", "b.wav"] emptyWorkspace).trace
      = ["a.wav", "b.wav"] ∧
    applyChainCalls (OnApplyToFiles happyEnv "Loud" ["a.wav", "b.wav"] emptyWorkspace).trace = 2 ∧
    advanceCalls (OnApplyToFiles happyEnv "Loud" ["a.wav", "b.wav"] emptyWorkspace).trace = 2 ∧
    happyEnv.GetIsEmpty (OnApplyToFiles happyEnv "Loud" ["a.wav", "b.wav"] emptyWorkspace).project
      = true :=
  C7_two_file_batch_completes happyEnv "Loud" "a.wav" "b.wav" emptyWorkspace
    (fun _ => rfl) (fun _ => rfl) (fun _ => rfl) (fun _ => rfl) rfl rfl rfl rfl
    (fun _ => rfl) (fun _ _ => rfl)

theorem importedFiles_append (t u : List Event) :
    importedFiles (t ++ u) = importedFiles t ++ importedFiles u := by
  simp [importedFiles, List.filterMap_append]

theorem importedFiles_headEvents (i : Nat) : importedFiles (headEvents i) = [] := by
  unfold headEvents importedFiles
  split_ifs <;> rfl

theorem importedFiles_resetEvents (i : Nat) : importedFiles (resetEvents i) = [] := rfl

theorem guardedBody_imported {W : Type} (env : BatchEnv W) (i : Nat) (file : String) (w : W) :
    importedFiles (guardedBody env i file w).2.2 = [file] := by
  dsimp only [guardedBody]
  split_ifs <;> rfl

theorem OnApplyToFiles_imported {W : Type} (env : BatchEnv W) (name : String)
    (files : List String) (w : W) :
    importedFiles (OnApplyToFiles env name files w).trace
      = importedFiles (batchLoop env 0 files w).2.1 := by
  simp [OnApplyToFiles, importedFiles, List.filterMap_append]

theorem applyChainCalls_append (t u : List Event) :
    applyChainCalls (t ++ u) = applyChainCalls t + applyChainCalls u := by
  simp [applyChainCalls, List.filter_append]

theorem applyChainCalls_headEvents (i : Nat) : applyChainCalls (headEvents i) = 0 := by
  unfold headEvents applyChainCalls
  split_ifs <;> rfl

/-- C2 (amended): in a batch [f1, f2, f3] where file 1 is processed and reset
and cancellation is true by the time file 2's test reads it, the test is read
only after file 2 has been imported: the files handed to Import are f1 and f2,
file 1 succeeds, file 2 does not, file 3 is not attempted.  When the import
and the chain application of file 2 succeed the run is Aborted at file 2, with
the chain applied twice.  If OnRemoveTracks empties the project (the spec's
removeAllContent), the project is empty afterwards. -/
theorem C2_cancel_between_files {W : Type} (env : BatchEnv W) (name f1 f2 f3 : String) (w : W)
    (hi0 : ∀ v, (env.Import 0 f1 v).1 = ImportResult.ok)
    (ha0 : ∀ v, (env.ApplyChain 0 v).1 = ApplyResult.returnedTrue)
    (hs0 : env.IsShown 0 = true) (hm0 : env.mAbort 0 = false)
    (hc1 : env.IsShown 1 = false ∨ env.mAbort 1 = true) :
    importedFiles (OnApplyToFiles env name [f1, f2, f3] w).trace = [f1, f2] ∧
    (∃ o, o ≠ FileOutcome.Success ∧ (OnApplyToFiles env name [f1, f2, f3] w).outcomes
      = [FileOutcome.Success, o, FileOutcome.NotAttempted]) ∧
    ((∀ v, (env.Import 1 f2 v).1 = ImportResult.ok) →
      (∀ v, (env.ApplyChain 1 v).1 = ApplyResult.returnedTrue) →
      (OnApplyToFiles env name [f1, f2, f3] w).outcomes
        = [FileOutcome.Success, FileOutcome.Aborted, FileOutcome.NotAttempted] ∧
      runOutcome (OnApplyToFiles env name [f1, f2, f3] w).outcomes = RunOutcome.Aborted ∧
      applyChainCalls (OnApplyToFiles env name [f1, f2, f3] w).trace = 2) ∧
    ((∀ v, env.GetIsEmpty (env.OnRemoveTracks v) = true) →
      env.GetIsEmpty (OnApplyToFiles env name [f1, f2, f3] w).project = true) := by
  have g0 : ∀ v, (guardedBody env 0 f1 v).1 = FileOutcome.Success := by
    intro v; simp [guardedBody, hi0, ha0, hs0, hm0]
  have t0 : ∀ v, (guardedBody env 0 f1 v).2.2 =
      [⟨some 0, Call.Import f1⟩, ⟨some 0, Call.ZoomAfterImport⟩,
       ⟨some 0, Call.OnSelectAll⟩, ⟨some 0, Call.ApplyChain⟩] := by
    intro v; simp [guardedBody, hi0, ha0, hs0, hm0]
  have hc : (!env.IsShown 1 || env.mAbort 1) = true := by
    rcases hc1 with h | h <;> simp [h]
  have g1 : ∀ v, (guardedBody env 1 f2 v).1 ≠ FileOutcome.Success := by
    intro v
    dsimp only [guardedBody]
    split_ifs <;> simp
  refine ⟨?_, ?_, ?_, ?_⟩
  · rw [OnApplyToFiles_imported]
    simp [batchLoop, g0, g1, importedFiles_append, importedFiles_headEvents,
      importedFiles_resetEvents, guardedBody_imported]
  · refine ⟨(guardedBody env 1 f2 (env.OnRemoveTracks (env.OnSelectAll
      (env.ClearStates (guardedBody env 0 f1 w).2.1)))).1, g1 _, ?_⟩
    simp [OnApplyToFiles, batchLoop, g0, g1]
  · intro hi1 ha1
    have a1 : ∀ v, (guardedBody env 1 f2 v).1 = FileOutcome.Aborted := by
      intro v; simp [guardedBody, hi1, ha1, hc]
    have t1 : ∀ v, (guardedBody env 1 f2 v).2.2 =
        [⟨some 1, Call.Import f2⟩, ⟨some 1, Call.ZoomAfterImport⟩,
         ⟨some 1, Call.OnSelectAll⟩, ⟨some 1, Call.ApplyChain⟩] := by
      intro v; simp [guardedBody, hi1, ha1, hc]
    refine ⟨?_, ?_, ?_⟩
    · simp [OnApplyToFiles, batchLoop, g0, a1]
    · simp [OnApplyToFiles, batchLoop, g0, a1, runOutcome]
    · simp [OnApplyToFiles, batchLoop, g0, a1, t0, t1, applyChainCalls, headEvents, resetEvents]
  · intro h
    exact h _

theorem C2_cancel_between_files_witness :
    importedFiles (OnApplyToFiles cancelEnv "Loud" ["f1", "f2", "f3"] emptyWorkspace).trace
      = ["f1", "f2"] ∧
    (∃ o, o ≠ FileOutcome.Success ∧
      (OnApplyToFiles cancelEnv "Loud" ["f1", "f2", "f3"] emptyWorkspace).outcomes
        = [FileOutcome.Success, o, FileOutcome.NotAttempted]) ∧
    ((OnApplyToFiles cancelEnv "Loud" ["f1", "f2", "f3"] emptyWorkspace).outcomes
        = [FileOutcome.Success, FileOutcome.Aborted, FileOutcome.NotAttempted] ∧
      runOutcome (OnApplyToFiles cancelEnv "Loud" ["f1", "f2", "f3"] emptyWorkspace).outcomes
        = RunOutcome.Aborted ∧
      applyChainCalls (OnApplyToFiles cancelEnv "Loud" ["f1", "f2", "f3"] emptyWorkspace).trace
        = 2) ∧
    cancelEnv.GetIsEmpty (OnApplyToFiles cancelEnv "Loud" ["f1", "f2", "f3"] emptyWorkspace).project
      = true :=
  have h := C2_cancel_between_files cancelEnv "Loud" "f1" "f2" "f3" emptyWorkspace
    (fun _ => rfl) (fun _ => rfl) rfl rfl (Or.inl rfl)
  ⟨h.1, h.2.1, h.2.2.1 (fun _ => rfl) (fun _ => rfl), h.2.2.2 (fun _ => rfl)⟩

theorem batchLoop_ReadChain {W : Type} (env : BatchEnv W) (r : String → Bool) (i : Nat)
    (files : List String) (w : W) :
    batchLoop { env with ReadChain := r } i files w = batchLoop env i files w := by
  induction files generalizing i w with
  | nil => rfl
  | cons f rest ih =>
    have hg : ∀ v, guardedBody { env with ReadChain := r } i f v = guardedBody env i f v :=
      fun _ => rfl
    simp only [batchLoop, hg, ih]

/-- C5 (amended): the value ReadChain(name) returns is discarded.  A run with
any other answers of ReadChain is the same run; given a non-empty name
ApplyChainToProject calls ApplyChain, and OnApplyToFiles imports the first
file of a non-empty batch and removes tracks at the end.  Only an empty chain
name makes ApplyChainToProject return before doing anything. -/
theorem C5_ReadChain_result_discarded {W : Type} (env : BatchEnv W) (r : String → Bool)
    (name : String) (files : List String) (w : W) (bHasGui shown : Bool) :
    ApplyChainToProject { env with ReadChain := r } name bHasGui w shown
      = ApplyChainToProject env name bHasGui w shown ∧
    OnApplyToFiles { env with ReadChain := r } name files w = OnApplyToFiles env name files w ∧
    (name ≠ "" →
      (⟨none, Call.ApplyChain⟩ : Event) ∈ (ApplyChainToProject env name bHasGui w shown).trace) ∧
    (∀ f rest, files = f :: rest →
      (⟨some 0, Call.Import f⟩ : Event) ∈ (OnApplyToFiles env name files w).trace) ∧
    (⟨none, Call.OnRemoveTracks⟩ : Event) ∈ (OnApplyToFiles env name files w).trace ∧
    (ApplyChainToProject env "" bHasGui w shown).trace = [] := by
  refine ⟨rfl, ?_, ?_, ?_, ?_, ?_⟩
  · simp only [OnApplyToFiles, batchLoop_ReadChain]
  · intro hname
    simp only [ApplyChainToProject, hname, if_false]
    split_ifs <;> simp
  · intro f rest hf
    subst hf
    simp only [OnApplyToFiles, batchLoop, guardedBody]
    split_ifs <;> simp [headEvents]
  · simp [OnApplyToFiles]
  · simp [ApplyChainToProject]

theorem C5_ReadChain_result_discarded_witness :
    (⟨none, Call.ApplyChain⟩ : Event)
      ∈ (ApplyChainToProject noChainEnv "NoSuchChain" true emptyWorkspace true).trace ∧
    (⟨some 0, Call.Import "f1"⟩ : Event)
      ∈ (OnApplyToFiles noChainEnv "NoSuchChain" ["f1", "f2"] emptyWorkspace).trace :=
  ⟨(C5_ReadChain_result_discarded noChainEnv (fun _ => true) "NoSuchChain" ["f1", "f2"]
      emptyWorkspace true true).2.2.1 (by decide),
   (C5_ReadChain_result_discarded noChainEnv (fun _ => true) "NoSuchChain" ["f1", "f2"]
      emptyWorkspace true true).2.2.2.1 "f1" ["f2"] rfl⟩

theorem headEvents_mem (i : Nat) (e : Event) (h : e ∈ headEvents i) :
    e.iter = some i ∧ ∀ p, e.call ≠ Call.Import p := by
  unfold headEvents at h
  split_ifs at h
  · simp at h
    rcases h with h | h | h <;> subst h <;> simp
  · simp at h
    rcases h with h | h <;> subst h <;> simp

theorem resetEvents_mem (i : Nat) (e : Event) (h : e ∈ resetEvents i) :
    e.iter = some i ∧ ∀ p, e.call ≠ Call.Import p := by
  simp [resetEvents] at h
  rcases h with h | h | h <;> subst h <;> simp

theorem guardedBody_mem {W : Type} (env : BatchEnv W) (i : Nat) (file : String) (w : W)
    (e : Event) (h : e ∈ (guardedBody env i file w).2.2) :
    e.iter = some i ∧ ∀ p, e.call = Call.Import p → p = file := by
  dsimp only [guardedBody] at h
  split_ifs at h
  · simp at h
    subst h; simp
  all_goals
    simp at h
    rcases h with h | h | h | h <;> subst h <;> simp

theorem guardedBody_success {W : Type} (env : BatchEnv W) (i : Nat) (file : String) (w : W)
    (h : (guardedBody env i file w).1 = FileOutcome.Success) :
    (guardedBody env i file w).2.2 =
      [⟨some i, Call.Import file⟩, ⟨some i, Call.ZoomAfterImport⟩,
       ⟨some i, Call.OnSelectAll⟩] ++ [⟨some i, Call.ApplyChain⟩] := by
  dsimp only [guardedBody] at h ⊢
  split_ifs at h ⊢
  simp

/-- The files handed to Import by the loop started at index `i` are a prefix of
the files it is given. -/
theorem batchLoop_imports_initial {W : Type} (env : BatchEnv W) (i : Nat) (files : List String) (w : W) :
    importedFiles (batchLoop env i files w).2.1 <+: files := by
  induction files generalizing i w with
  | nil => simp [batchLoop, importedFiles]
  | cons f rest ih =>
    simp only [batchLoop]
    split_ifs
    · simp [importedFiles_append, importedFiles_headEvents, guardedBody_imported]
    · simp only [importedFiles_append, importedFiles_headEvents, guardedBody_imported,
        importedFiles_resetEvents, List.nil_append, List.append_nil, List.singleton_append]
      exact (List.prefix_cons_inj f).2 (ih _ _)

/-- An Import call made at iteration `j` of the loop started at `i` has
`i ≤ j` and is for the file at position `j - i` of the list. -/
theorem batchLoop_import_mem {W : Type} (env : BatchEnv W) (i : Nat) (files : List String)
    (w : W) (j : Nat) (p : String)
    (h : (⟨some j, Call.Import p⟩ : Event) ∈ (batchLoop env i files w).2.1) :
    i ≤ j ∧ files.get? (j - i) = some p := by
  induction files generalizing i w with
  | nil => simp [batchLoop] at h
  | cons f rest ih =>
    have hhead : (⟨some j, Call.Import p⟩ : Event) ∈ headEvents i → False := fun hm =>
      (headEvents_mem i _ hm).2 p rfl
    have hreset : (⟨some j, Call.Import p⟩ : Event) ∈ resetEvents i → False := fun hm =>
      (resetEvents_mem i _ hm).2 p rfl
    have hbody : (⟨some j, Call.Import p⟩ : Event) ∈ (guardedBody env i f w).2.2 →
        i ≤ j ∧ (f :: rest).get? (j - i) = some p := by
      intro hm
      have hb := guardedBody_mem env i f w _ hm
      have hj : j = i := by simpa using hb.1
      have hp : p = f := hb.2 p rfl
      subst hj; subst hp
      simp
    simp only [batchLoop] at h
    split_ifs at h
    · simp only [List.mem_append] at h
      rcases h with h | h
      · exact (hhead h).elim
      · exact hbody h
    · simp only [List.mem_append] at h
      rcases h with ((h | h) | h) | h
      · exact (hhead h).elim
      · exact hbody h
      · exact (hreset h).elim
      · obtain ⟨h1, h2⟩ := ih _ _ h
        refine ⟨by omega, ?_⟩
        have hji : j - i = (j - (i + 1)) + 1 := by omega
        rw [hji]
        simpa using h2

/-- In the loop started at `i`: when iteration `j + 1` makes its Import call,
iteration `j`'s ApplyChain call and, right after it, its reset (ClearStates,
OnSelectAll, OnRemoveTracks) come before that call. -/
theorem batchLoop_reset_order {W : Type} (env : BatchEnv W) (i : Nat) (files : List String)
    (w : W) (j : Nat) (p : String) (hij : i ≤ j)
    (h : (⟨some (j + 1), Call.Import p⟩ : Event) ∈ (batchLoop env i files w).2.1) :
    ∃ pre mid post, (batchLoop env i files w).2.1 =
      pre ++ ⟨some j, Call.ApplyChain⟩ :: ⟨some j, Call.ClearStates⟩ ::
        ⟨some j, Call.OnSelectAll⟩ :: ⟨some j, Call.OnRemoveTracks⟩ ::
        (mid ++ ⟨some (j + 1), Call.Import p⟩ :: post) := by
  induction files generalizing i w with
  | nil => simp [batchLoop] at h
  | cons f rest ih =>
    have hhead : (⟨some (j + 1), Call.Import p⟩ : Event) ∈ headEvents i → False := fun hm =>
      (headEvents_mem i _ hm).2 p rfl
    have hreset : (⟨some (j + 1), Call.Import p⟩ : Event) ∈ resetEvents i → False := fun hm =>
      (resetEvents_mem i _ hm).2 p rfl
    have hbody : (⟨some (j + 1), Call.Import p⟩ : Event) ∈ (guardedBody env i f w).2.2 →
        False := by
      intro hm
      have hb := (guardedBody_mem env i f w _ hm).1
      have hj : j + 1 = i := by simpa using hb
      omega
    simp only [batchLoop] at h ⊢
    split_ifs at h ⊢ with hs
    · simp only [List.mem_append] at h
      rcases h with h | h
      · exact (hhead h).elim
      · exact (hbody h).elim
    · simp only [List.mem_append] at h
      have hsucc : (guardedBody env i f w).1 = FileOutcome.Success := by
        simpa using hs
      rcases h with ((h | h) | h) | h
      · exact (hhead h).elim
      · exact (hbody h).elim
      · exact (hreset h).elim
      · rcases Nat.eq_or_lt_of_le hij with hji | hji
        · subst hji
          obtain ⟨mid, post, hsplit⟩ := List.append_of_mem h
          refine ⟨headEvents i ++ [⟨some i, Call.Import f⟩, ⟨some i, Call.ZoomAfterImport⟩,
            ⟨some i, Call.OnSelectAll⟩], mid, post, ?_⟩
          rw [guardedBody_success env i f w hsucc, hsplit]
          simp [resetEvents]
        · obtain ⟨pre, mid, post, hdec⟩ := ih (i + 1) _ (by omega) h
          refine ⟨headEvents i ++ (guardedBody env i f w).2.2 ++ resetEvents i ++ pre,
            mid, post, ?_⟩
          rw [hdec]
          simp

/-- C6: in every batch run the files handed to Import are a prefix of the list
supplied, in its order; an Import call made at iteration i is for the file at
position i; and whenever the file at position i + 1 is imported, the ApplyChain
call of file i and then its reset (ClearStates, OnSelectAll, OnRemoveTracks)
come before that Import call. -/
theorem C6_batch_order {W : Type} (env : BatchEnv W) (name : String) (files : List String)
    (w : W) :
    importedFiles (OnApplyToFiles env name files w).trace <+: files ∧
    (∀ (i : Nat) (p : String),
      (⟨some i, Call.Import p⟩ : Event) ∈ (OnApplyToFiles env name files w).trace →
      files.get? i = some p) ∧
    (∀ (i : Nat) (p : String),
      (⟨some (i + 1), Call.Import p⟩ : Event) ∈ (OnApplyToFiles env name files w).trace →
      ∃ pre mid post, (OnApplyToFiles env name files w).trace =
        pre ++ ⟨some i, Call.ApplyChain⟩ :: ⟨some i, Call.ClearStates⟩ ::
          ⟨some i, Call.OnSelectAll⟩ :: ⟨some i, Call.OnRemoveTracks⟩ ::
          (mid ++ ⟨some (i + 1), Call.Import p⟩ :: post)) := by
  have hmem : ∀ (i : Nat) (p : String),
      (⟨some i, Call.Import p⟩ : Event) ∈ (OnApplyToFiles env name files w).trace →
      (⟨some i, Call.Import p⟩ : Event) ∈ (batchLoop env 0 files w).2.1 := by
    intro i p h
    simpa [OnApplyToFiles] using h
  refine ⟨?_, ?_, ?_⟩
  · rw [OnApplyToFiles_imported]
    exact batchLoop_imports_initial env 0 files w
  · intro i p h
    simpa using (batchLoop_import_mem env 0 files w i p (hmem i p h)).2
  · intro i p h
    obtain ⟨pre, mid, post, hdec⟩ :=
      batchLoop_reset_order env 0 files w i p (Nat.zero_le i) (hmem (i + 1) p h)
    refine ⟨[⟨none, Call.Hide⟩, ⟨none, Call.ReadChain name⟩] ++ pre, mid,
      post ++ [⟨none, Call.OnRemoveTracks⟩, ⟨none, Call.Hide⟩], ?_⟩
    simp only [OnApplyToFiles, hdec]
    simp

theorem C6_batch_order_witness :
    ["f1", "f2"].get? 1 = some "f2" ∧
    ∃ pre mid post, (OnApplyToFiles happyEnv "Loud" ["f1", "f2"] emptyWorkspace).trace =
      pre ++ ⟨some 0, Call.ApplyChain⟩ :: ⟨some 0, Call.ClearStates⟩ ::
        ⟨some 0, Call.OnSelectAll⟩ :: ⟨some 0, Call.OnRemoveTracks⟩ ::
        (mid ++ ⟨some (0 + 1), Call.Import "f2"⟩ :: post) :=
  ⟨(C6_batch_order happyEnv "Loud" ["f1", "f2"] emptyWorkspace).2.1 1 "f2" (by decide),
   (C6_batch_order happyEnv "Loud" ["f1", "f2"] emptyWorkspace).2.2 0 "f2" (by decide)⟩

/-- When the import of the second of three files throws, the loop does stop
there: the first file succeeds, the second fails, the third is not attempted,
and Import is called for the first two files only. -/
theorem import_threw_stops_batch {W : Type} (env : BatchEnv W) (name f1 f2 f3 : String) (w : W)
    (hi0 : ∀ v, (env.Import 0 f1 v).1 = ImportResult.ok)
    (ha0 : ∀ v, (env.ApplyChain 0 v).1 = ApplyResult.returnedTrue)
    (hs0 : env.IsShown 0 = true) (hm0 : env.mAbort 0 = false)
    (hi1 : ∀ v, (env.Import 1 f2 v).1 = ImportResult.threw) :
    (OnApplyToFiles env name [f1, f2, f3] w).outcomes
      = [FileOutcome.Success, FileOutcome.Failed, FileOutcome.NotAttempted] ∧
    importedFiles (OnApplyToFiles env name [f1, f2, f3] w).trace = [f1, f2] := by
  have g0 : ∀ v, (guardedBody env 0 f1 v).1 = FileOutcome.Success := by
    intro v; simp [guardedBody, hi0, ha0, hs0, hm0]
  have g1 : ∀ v, (guardedBody env 1 f2 v).1 = FileOutcome.Failed := by
    intro v; simp [guardedBody, hi1]
  constructor
  · simp [OnApplyToFiles, batchLoop, g0, g1]
  · rw [OnApplyToFiles_imported]
    simp [batchLoop, g0, g1, importedFiles_append, importedFiles_headEvents,
      importedFiles_resetEvents, guardedBody_imported]

/-! ## Rejected moves, deletion, parameter edits and the selection -/

/-- C11: with the list showing the chain, OnUp with row 0, with no selection or
with the END row selected, and OnDown with no selection, with the last real
step or with the END row selected, return at once: the dialog is left as it
was, so the step list, mChanged and mSelectedCommand are unchanged. -/
theorem C11_boundary_moves_are_noops (s : EditChainsDialog) (hd : Displayed s) :
    ((s.mList.GetNextItem = 0 ∨ s.mList.GetNextItem = -1 ∨
        s.mList.GetNextItem = (s.mChain.length : Int)) →
      OnUp s = s ∧ (OnUp s).mChain = s.mChain ∧ (OnUp s).mChanged = s.mChanged ∧
        (OnUp s).mSelectedCommand = s.mSelectedCommand) ∧
    ((s.mList.GetNextItem = -1 ∨ s.mList.GetNextItem + 1 = (s.mChain.length : Int) ∨
        s.mList.GetNextItem = (s.mChain.length : Int)) →
      OnDown s = s ∧ (OnDown s).mChain = s.mChain ∧ (OnDown s).mChanged = s.mChanged ∧
        (OnDown s).mSelectedCommand = s.mSelectedCommand) := by
  have hc : s.mList.GetItemCount = (s.mChain.length : Int) + 1 := hd
  constructor
  · intro h
    have hg : s.mList.GetNextItem = -1 ∨ s.mList.GetNextItem = 0 ∨
        s.mList.GetNextItem + 1 = s.mList.GetItemCount := by
      rw [hc]; omega
    have hup : OnUp s = s := by simp only [OnUp, hg, if_true]
    rw [hup]
    exact ⟨rfl, rfl, rfl, rfl⟩
  · intro h
    have hg : s.mList.GetNextItem = -1 ∨ s.mList.GetNextItem + 2 ≥ s.mList.GetItemCount := by
      rw [hc]; omega
    have hdown : OnDown s = s := by simp only [OnDown, hg, if_true]
    rw [hdown]
    exact ⟨rfl, rfl, rfl, rfl⟩

theorem C11_boundary_moves_are_noops_witness :
    (OnUp (sampleEditor 0) = sampleEditor 0 ∧
      (OnUp (sampleEditor 0)).mChain = (sampleEditor 0).mChain ∧
      (OnUp (sampleEditor 0)).mChanged = (sampleEditor 0).mChanged ∧
      (OnUp (sampleEditor 0)).mSelectedCommand = (sampleEditor 0).mSelectedCommand) ∧
    (OnDown (sampleEditor 2) = sampleEditor 2 ∧
      (OnDown (sampleEditor 2)).mChain = (sampleEditor 2).mChain ∧
      (OnDown (sampleEditor 2)).mChanged = (sampleEditor 2).mChanged ∧
      (OnDown (sampleEditor 2)).mSelectedCommand = (sampleEditor 2).mSelectedCommand) :=
  ⟨(C11_boundary_moves_are_noops (sampleEditor 0) (PopulateList_Displayed _)).1
      (Or.inl (by decide)),
   (C11_boundary_moves_are_noops (sampleEditor 2) (PopulateList_Displayed _)).2
      (Or.inr (Or.inl (by decide)))⟩

/-- C12: with the list showing the chain, OnDelete with no selection or with
the END row selected leaves the dialog as it was (step list and mChanged
unchanged); with the row i of a real step selected the step list becomes the
old one with the element at i removed: one step shorter, the other steps in
their order, and so a different list. -/
theorem C12_OnDelete_removes_real_step_only (s : EditChainsDialog) (hd : Displayed s) :
    ((s.mList.GetNextItem = -1 ∨ s.mList.GetNextItem = (s.mChain.length : Int)) →
      OnDelete s = s ∧ (OnDelete s).mChain = s.mChain ∧ (OnDelete s).mChanged = s.mChanged) ∧
    (∀ i : Nat, i < s.mChain.length → s.mList.GetNextItem = (i : Int) →
      (OnDelete s).mChain = s.mChain.eraseIdx i ∧
      (OnDelete s).mChain.length + 1 = s.mChain.length ∧
      (OnDelete s).mChain ≠ s.mChain ∧
      (OnDelete s).mChanged = true) := by
  have hc : s.mList.GetItemCount = (s.mChain.length : Int) + 1 := hd
  constructor
  · intro h
    have hg : s.mList.GetNextItem = -1 ∨ s.mList.GetNextItem + 1 = s.mList.GetItemCount := by
      rw [hc]; omega
    have hdel : OnDelete s = s := by simp only [OnDelete, hg, if_true]
    rw [hdel]
    exact ⟨rfl, rfl, rfl⟩
  · intro i hi hsel
    obtain ⟨a, x, b, hl, ha⟩ := split_one s.mChain i hi
    have hsel2 : s.mList.GetNextItem = (a.length : Int) := by rw [hsel, ha]
    have herase : s.mChain.eraseIdx i = a ++ b := by
      rw [hl, ← ha, List.eraseIdx_append_of_length_le (Nat.le_refl _)]
      simp
    rw [OnDelete_result s a b x hd hl hsel2, PopulateList_mChain, PopulateList_mChanged, herase]
    refine ⟨rfl, ?_, ?_, rfl⟩
    · rw [hl]; simp; omega
    · intro heq
      have hlen := congrArg List.length heq
      rw [hl] at hlen
      simp at hlen

theorem C12_OnDelete_removes_real_step_only_witness :
    (OnDelete (sampleEditor 3) = sampleEditor 3 ∧
      (OnDelete (sampleEditor 3)).mChain = (sampleEditor 3).mChain ∧
      (OnDelete (sampleEditor 3)).mChanged = (sampleEditor 3).mChanged) ∧
    ((OnDelete (sampleEditor 1)).mChain = (sampleEditor 1).mChain.eraseIdx 1 ∧
      (OnDelete (sampleEditor 1)).mChain.length + 1 = (sampleEditor 1).mChain.length ∧
      (OnDelete (sampleEditor 1)).mChain ≠ (sampleEditor 1).mChain ∧
      (OnDelete (sampleEditor 1)).mChanged = true) :=
  ⟨(C12_OnDelete_removes_real_step_only (sampleEditor 3) (PopulateList_Displayed _)).1
      (Or.inr (by decide)),
   (C12_OnDelete_removes_real_step_only (sampleEditor 1) (PopulateList_Displayed _)).2 1
      (by decide) (by decide)⟩

theorem get?_replace_mid (a b : List Step) (x y : Step) :
    ∀ j : Nat, j ≠ a.length → (a ++ y :: b).get? j = (a ++ x :: b).get? j := by
  induction a with
  | nil =>
    intro j hj
    cases j with
    | zero => simp at hj
    | succ k => rfl
  | cons z t ih =>
    intro j hj
    cases j with
    | zero => rfl
    | succ k =>
      have hk : k ≠ t.length := by
        intro h
        apply hj
        simp [h]
      simpa using ih k hk

/-- C13 (as stated) fails: the prompt hands back the new parameters "3dB " and
the step at the selected row 1 ends up with the parameters "3dB". -/
theorem C13_new_params_are_trimmed :
    (sampleEditor 1).mList.GetNextItem = 1 ∧
    (OnEditCommandParams (sampleEditor 1) ⟨0, "", ""⟩ (fun _ _ => "3dB ")).mChain.get? 1
      = some (Step.mk "Amplify" "3dB") ∧
    (Step.mk "Amplify" "3dB") ≠ (Step.mk "Amplify" "3dB ") := by
  decide

/-- C13 (amended): with the list showing the chain and the row i of a real step
selected, OnEditCommandParams gives a list of the same length in which the step
at i keeps its command and has as parameters the string handed back by the
prompt with the white space at its right end trimmed, and every step at another
index is unchanged. -/
theorem C13_OnEditCommandParams_frame (s : EditChainsDialog) (d : BatchCommandDialog)
    (prompt : String → String → String) (i : Nat) (hd : Displayed s)
    (hi : i < s.mChain.length) (hsel : s.mList.GetNextItem = (i : Int)) :
    (OnEditCommandParams s d prompt).mChain.length = s.mChain.length ∧
    (∃ x, s.mChain.get? i = some x ∧
      (OnEditCommandParams s d prompt).mChain.get? i
        = some (Step.mk x.command (wxTrim (prompt x.command x.params)))) ∧
    (∀ j : Nat, j ≠ i →
      (OnEditCommandParams s d prompt).mChain.get? j = s.mChain.get? j) := by
  obtain ⟨a, x, b, hl, ha⟩ := split_one s.mChain i hi
  have hsel2 : s.mList.GetNextItem = (a.length : Int) := by rw [hsel, ha]
  rw [OnEditCommandParams_result s d prompt a b x hd hl hsel2, PopulateList_mChain, hl, ← ha]
  refine ⟨by simp, ⟨x, get?_mid a b x, get?_mid a b _⟩, ?_⟩
  intro j hj
  exact get?_replace_mid a b x _ j hj

theorem C13_OnEditCommandParams_frame_witness :
    (OnEditCommandParams (sampleEditor 1) ⟨0, "", ""⟩ (fun _ _ => "3dB ")).mChain.length
      = (sampleEditor 1).mChain.length ∧
    (∃ x, (sampleEditor 1).mChain.get? 1 = some x ∧
      (OnEditCommandParams (sampleEditor 1) ⟨0, "", ""⟩ (fun _ _ => "3dB ")).mChain.get? 1
        = some (Step.mk x.command (wxTrim ((fun _ _ => "3dB ") x.command x.params)))) ∧
    (∀ j : Nat, j ≠ 1 →
      (OnEditCommandParams (sampleEditor 1) ⟨0, "", ""⟩ (fun _ _ => "3dB ")).mChain.get? j
        = (sampleEditor 1).mChain.get? j) :=
  C13_OnEditCommandParams_frame (sampleEditor 1) ⟨0, "", ""⟩ (fun _ _ => "3dB ") 1
    (PopulateList_Displayed _) (by decide) (by decide)

/-- C14: when the loaded chain is dirty and the save prompt is answered with
Cancel, ChangeOK returns false and leaves the dialog as it was (no WriteChain
call is recorded); OnChainSelected vetoes the event and OnCancel returns
without hiding, both leaving the whole dialog as it was: mActiveChain, the step
list, mChanged, the visibility and the store calls (no ReadChain). -/
theorem C14_cancel_answer_abandons (env : StoreEnv) (s : EditChainsDialog) (item : Int)
    (hdirty : s.mChanged = true) :
    ChangeOK env wxCANCEL s = (false, s) ∧
    OnChainSelected env wxCANCEL item s = (true, s) ∧
    EditChainsDialog.OnCancel env wxCANCEL s = s ∧
    (OnChainSelected env wxCANCEL item s).2.storeCalls = s.storeCalls ∧
    (EditChainsDialog.OnCancel env wxCANCEL s).shown = s.shown := by
  have h1 : ChangeOK env wxCANCEL s = (false, s) := by simp [ChangeOK, hdirty]
  have h2 : OnChainSelected env wxCANCEL item s = (true, s) := by
    simp [OnChainSelected, h1]
  have h3 : EditChainsDialog.OnCancel env wxCANCEL s = s := by
    simp [EditChainsDialog.OnCancel, h1]
  refine ⟨h1, h2, h3, ?_, ?_⟩
  · rw [h2]
  · rw [h3]

theorem C14_cancel_answer_abandons_witness :
    ChangeOK twoChainStore wxCANCEL dirtyEditor = (false, dirtyEditor) ∧
    OnChainSelected twoChainStore wxCANCEL 1 dirtyEditor = (true, dirtyEditor) ∧
    EditChainsDialog.OnCancel twoChainStore wxCANCEL dirtyEditor = dirtyEditor ∧
    (OnChainSelected twoChainStore wxCANCEL 1 dirtyEditor).2.storeCalls
      = dirtyEditor.storeCalls ∧
    (EditChainsDialog.OnCancel twoChainStore wxCANCEL dirtyEditor).shown = dirtyEditor.shown :=
  C14_cancel_answer_abandons twoChainStore dirtyEditor 1 (by decide)

/-- C15 (as stated) fails: with a GUI and a chain that applies successfully,
ApplyChainToProject ends with Hide(): the dialog, visible on entry, is not
shown when the run returns. -/
theorem C15_dialog_hidden_after_success :
    (happyEnv.ApplyChain 0 emptyWorkspace).1 = ApplyResult.returnedTrue ∧
    (ApplyChainToProject happyEnv "Loud" true emptyWorkspace true).success = some true ∧
    (ApplyChainToProject happyEnv "Loud" true emptyWorkspace true).shown = false ∧
    (ApplyChainToProject happyEnv "Loud" true emptyWorkspace true).trace.getLast?
      = some ⟨none, Call.Hide⟩ := by
  decide

/-- C15 (amended): in ApplyChainToProject with a GUI and a non-empty chain
name, a chain application that returns false or throws is caught and gives the
result success = false, and the dialog is shown again (the last call is
Show()); a chain application that succeeds gives success = true and leaves the
dialog hidden (the last call is Hide()). -/
theorem C15_ApplyChainToProject_visibility {W : Type} (env : BatchEnv W) (name : String)
    (w : W) (shown : Bool) (hname : name ≠ "") :
    (((env.ApplyChain 0 w).1 = ApplyResult.returnedFalse ∨
        (env.ApplyChain 0 w).1 = ApplyResult.threw) →
      (ApplyChainToProject env name true w shown).success = some false ∧
      (ApplyChainToProject env name true w shown).shown = true ∧
      (ApplyChainToProject env name true w shown).trace.getLast? = some ⟨none, Call.Show⟩) ∧
    ((env.ApplyChain 0 w).1 = ApplyResult.returnedTrue →
      (ApplyChainToProject env name true w shown).success = some true ∧
      (ApplyChainToProject env name true w shown).shown = false ∧
      (ApplyChainToProject env name true w shown).trace.getLast? = some ⟨none, Call.Hide⟩) := by
  constructor
  · intro h
    have hne : ((env.ApplyChain 0 w).1 == ApplyResult.returnedTrue) = false := by
      rcases h with h | h <;> rw [h] <;> rfl
    simp [ApplyChainToProject, hname, hne]
  · intro h
    have he : ((env.ApplyChain 0 w).1 == ApplyResult.returnedTrue) = true := by
      rw [h]; rfl
    simp [ApplyChainToProject, hname, he]

theorem C15_ApplyChainToProject_visibility_witness :
    ((ApplyChainToProject failingChainEnv "Loud" true emptyWorkspace true).success = some false ∧
      (ApplyChainToProject failingChainEnv "Loud" true emptyWorkspace true).shown = true ∧
      (ApplyChainToProject failingChainEnv "Loud" true emptyWorkspace true).trace.getLast?
        = some ⟨none, Call.Show⟩) ∧
    ((ApplyChainToProject happyEnv "Loud" true emptyWorkspace true).success = some true ∧
      (ApplyChainToProject happyEnv "Loud" true emptyWorkspace true).shown = false ∧
      (ApplyChainToProject happyEnv "Loud" true emptyWorkspace true).trace.getLast?
        = some ⟨none, Call.Hide⟩) :=
  ⟨(C15_ApplyChainToProject_visibility failingChainEnv "Loud" emptyWorkspace true
      (by decide)).1 (Or.inl rfl),
   (C15_ApplyChainToProject_visibility happyEnv "Loud" emptyWorkspace true
      (by decide)).2 rfl⟩

/-- C16: SaveChanges records a WriteChain(mActiveChain) call exactly when
mChanged is true on entry; when that write fails it returns false and mChanged
stays true; in every other case it returns true with mChanged false; and when
SaveChanges returns false, OnOK does not hide the dialog and the editor's
OnApplyToProject and OnApplyToFiles start no run: each leaves the dialog as
SaveChanges left it. -/
theorem C16_SaveChanges_gates {W : Type} (store : StoreEnv) (env : BatchEnv W)
    (s : EditChainsDialog) (bHasGui : Bool) (dlog : Option (List String)) (w : W) :
    (EditChainsDialog.SaveChanges store s).2.1.storeCalls
      = s.storeCalls ++ (if s.mChanged then [StoreCall.WriteChain s.mActiveChain] else []) ∧
    (s.mChanged = true → store.WriteChain s.mActiveChain s.mChain = false →
      (EditChainsDialog.SaveChanges store s).1 = false ∧
      (EditChainsDialog.SaveChanges store s).2.1.mChanged = true) ∧
    (¬ (s.mChanged = true ∧ store.WriteChain s.mActiveChain s.mChain = false) →
      (EditChainsDialog.SaveChanges store s).1 = true ∧
      (EditChainsDialog.SaveChanges store s).2.1.mChanged = false) ∧
    ((EditChainsDialog.SaveChanges store s).1 = false →
      EditChainsDialog.OnOK store s = (EditChainsDialog.SaveChanges store s).2 ∧
      (EditChainsDialog.OnOK store s).1.shown = s.shown ∧
      (⟨none, Call.Hide⟩ : Event) ∉ (EditChainsDialog.OnOK store s).2 ∧
      (EditChainsDialog.OnApplyToProject store env bHasGui s w).projectRun = none ∧
      (EditChainsDialog.OnApplyToProject store env bHasGui s w).dialog
        = (EditChainsDialog.SaveChanges store s).2.1 ∧
      (EditChainsDialog.OnApplyToFiles store env dlog s w).filesRun = none ∧
      (EditChainsDialog.OnApplyToFiles store env dlog s w).dialog
        = (EditChainsDialog.SaveChanges store s).2.1) := by
  refine ⟨?_, ?_, ?_, ?_⟩
  · dsimp only [EditChainsDialog.SaveChanges]
    split_ifs <;> simp
  · intro hch hw
    simp [EditChainsDialog.SaveChanges, hch, hw]
  · intro h
    dsimp only [EditChainsDialog.SaveChanges]
    split_ifs with h1 h2
    · exact absurd ⟨h1, by simpa using h2⟩ h
    · exact ⟨rfl, rfl⟩
    · exact ⟨rfl, rfl⟩
  · intro hfalse
    have hshown : (EditChainsDialog.SaveChanges store s).2.1.shown = s.shown := by
      dsimp only [EditChainsDialog.SaveChanges]
      split_ifs <;> rfl
    have htrace : (⟨none, Call.Hide⟩ : Event) ∉ (EditChainsDialog.SaveChanges store s).2.2 := by
      dsimp only [EditChainsDialog.SaveChanges]
      split_ifs <;> simp
    have hok : EditChainsDialog.OnOK store s = (EditChainsDialog.SaveChanges store s).2 := by
      simp [EditChainsDialog.OnOK, hfalse]
    refine ⟨hok, ?_, ?_, ?_, ?_, ?_, ?_⟩
    · rw [hok, hshown]
    · rw [hok]; exact htrace
    · simp [EditChainsDialog.OnApplyToProject, hfalse]
    · simp [EditChainsDialog.OnApplyToProject, hfalse]
    · simp [EditChainsDialog.OnApplyToFiles, hfalse]
    · simp [EditChainsDialog.OnApplyToFiles, hfalse]

theorem C16_SaveChanges_gates_witness :
    ((EditChainsDialog.SaveChanges readOnlyStore dirtyEditor).1 = false ∧
      (EditChainsDialog.SaveChanges readOnlyStore dirtyEditor).2.1.mChanged = true) ∧
    (EditChainsDialog.OnOK readOnlyStore dirtyEditor
        = (EditChainsDialog.SaveChanges readOnlyStore dirtyEditor).2 ∧
      (EditChainsDialog.OnOK readOnlyStore dirtyEditor).1.shown = dirtyEditor.shown ∧
      (⟨none, Call.Hide⟩ : Event) ∉ (EditChainsDialog.OnOK readOnlyStore dirtyEditor).2 ∧
      (EditChainsDialog.OnApplyToProject readOnlyStore happyEnv true dirtyEditor
        emptyWorkspace).projectRun = none ∧
      (EditChainsDialog.OnApplyToProject readOnlyStore happyEnv true dirtyEditor
        emptyWorkspace).dialog = (EditChainsDialog.SaveChanges readOnlyStore dirtyEditor).2.1 ∧
      (EditChainsDialog.OnApplyToFiles readOnlyStore happyEnv (some ["a.wav"]) dirtyEditor
        emptyWorkspace).filesRun = none ∧
      (EditChainsDialog.OnApplyToFiles readOnlyStore happyEnv (some ["a.wav"]) dirtyEditor
        emptyWorkspace).dialog = (EditChainsDialog.SaveChanges readOnlyStore dirtyEditor).2.1) :=
  ⟨(C16_SaveChanges_gates readOnlyStore happyEnv dirtyEditor true (some ["a.wav"])
      emptyWorkspace).2.1 (by decide) (by decide),
   (C16_SaveChanges_gates readOnlyStore happyEnv dirtyEditor true (some ["a.wav"])
      emptyWorkspace).2.2.2 (by decide)⟩

/-- C17 at the failing input: a chain of exactly one step, shown with row 0
selected (a valid row).  OnDelete empties the chain and leaves
mSelectedCommand = -1, which PopulateList hands to the list although the list
then has the single row 0 (END). -/
theorem C17_OnDelete_single_step_selection :
    oneStepEditor.mChain.length = 1 ∧
    oneStepEditor.mSelectedCommand = 0 ∧
    oneStepEditor.mList.GetNextItem = 0 ∧
    (OnDelete oneStepEditor).mChain = [] ∧
    (OnDelete oneStepEditor).mList.GetItemCount = 1 ∧
    (OnDelete oneStepEditor).mSelectedCommand = -1 ∧
    ¬ ValidSelection (OnDelete oneStepEditor) := by
  refine ⟨by decide, by decide, by decide, by decide, by decide, by decide, ?_⟩
  intro h
  have h0 := h.1
  have hm : (OnDelete oneStepEditor).mSelectedCommand = -1 := by decide
  rw [hm] at h0
  omega

theorem PopulateList_ValidSelection (t : EditChainsDialog) (h : 0 ≤ t.mSelectedCommand) :
    ValidSelection (PopulateList t) := by
  have hlen := endList_length t
  unfold ValidSelection
  simp only [PopulateList, ListCtrl.GetItemCount, hlen]
  split_ifs with hge
  · constructor
    · omega
    · omega
  · constructor
    · exact h
    · omega

theorem InsertCommandAt_ValidSelection (s : EditChainsDialog) (d : BatchCommandDialog)
    (item : Int) (hv : ValidSelection s) (hitem : -1 ≤ item) :
    ValidSelection (InsertCommandAt s d item) := by
  unfold InsertCommandAt
  split_ifs with h1 h2 h3
  · exact hv
  · exact hv
  · apply PopulateList_ValidSelection
    show 0 ≤ item + 1
    omega
  · exact hv

/-- Apart from OnDelete on a one-step chain, the operations on the step list
keep the selection valid: from a dialog that shows its chain, with a valid
mSelectedCommand and a selected row that is a row of the list (or none), every
operation leaves 0 <= mSelectedCommand <= number of stored steps. -/
theorem selection_valid_unless_single_delete (s : EditChainsDialog) (d : BatchCommandDialog)
    (prompt : String → String → String) (hd : Displayed s) (hv : ValidSelection s)
    (hlo : -1 ≤ s.mList.GetNextItem) (hhi : s.mList.GetNextItem ≤ (s.mChain.length : Int)) :
    ValidSelection (OnInsert s d) ∧
    ValidSelection (OnEditCommandParams s d prompt) ∧
    ValidSelection (OnUp s) ∧
    ValidSelection (OnDown s) ∧
    (¬ (s.mList.GetNextItem = 0 ∧ s.mChain.length = 1) → ValidSelection (OnDelete s)) := by
  have hc : s.mList.GetItemCount = (s.mChain.length : Int) + 1 := hd
  refine ⟨?_, ?_, ?_, ?_, ?_⟩
  · unfold OnInsert
    apply InsertCommandAt_ValidSelection s d _ hv
    split_ifs <;> omega
  · dsimp only [OnEditCommandParams]
    split_ifs with hg
    · apply InsertCommandAt_ValidSelection s d _ hv
      omega
    · apply PopulateList_ValidSelection
      show 0 ≤ s.mList.GetNextItem
      omega
  · dsimp only [OnUp]
    split_ifs with hg
    · exact hv
    · apply PopulateList_ValidSelection
      show 0 ≤ s.mList.GetNextItem - 1
      omega
  · dsimp only [OnDown]
    split_ifs with hg
    · exact hv
    · apply PopulateList_ValidSelection
      show 0 ≤ s.mList.GetNextItem + 1
      omega
  · intro hne
    dsimp only [OnDelete]
    split_ifs with hg h2
    · exact hv
    · apply PopulateList_ValidSelection
      show 0 ≤ s.mList.GetNextItem - 1
      omega
    · apply PopulateList_ValidSelection
      show 0 ≤ s.mList.GetNextItem
      omega

end Audacity
